import Mathlib

set_option maxRecDepth 100000

/-!
Verification development for the recipe-engine condition-expression evaluator
(`expression_evaluator.py`) and the model-pattern resolver (`model_resolver.py`)
of the amplifier tool-recipes module.

The Python code is shallowly embedded: every function below mirrors the
corresponding Python function.  Machine strings are `String`/`List Char`;
Python `float()` values produced by `_try_numeric` are modelled as IEEE-754
binary64 values: the literal (`float()`'s grammar — sign, `inf`/`infinity`/
`nan` case-insensitively, or digits with PEP 515 underscores, fraction and
exponent) is read as an exact rational and rounded to the nearest double
(ties to even, subnormals and overflow to infinity included), represented as
an exact dyadic `m * 2 ^ e`, a signed infinity or NaN; comparisons are the
machine ones, with NaN incomparable.  Fallible code returns `Except String`.  Recursions that are not structural in the source (scanning,
tokenizing, recursive-descent parsing, glob matching) are given explicit fuel;
the public wrappers supply fuel that is provably sufficient, so every wrapper
is executable and kernel-reducible.
-/

/-- The single-quote character, written via its code point. -/
def squote : Char := Char.ofNat 39

/-- The double-quote character, written via its code point. -/
def dquote : Char := Char.ofNat 34

/-- The left-brace character, written via its code point. -/
def lbrace : Char := Char.ofNat 123

/-- The right-brace character, written via its code point. -/
def rbrace : Char := Char.ofNat 125

/-- A one-character string holding a single quote. -/
def squoteStr : String := String.mk [squote]

/-- Python `str.isspace` / `str.strip` whitespace class (ASCII part):
space, tab, newline, carriage return, vertical tab, form feed. -/
def pyIsSpace (c : Char) : Bool :=
  c = ' ' || c = '\t' || c = '\n' || c = '\r' || c = Char.ofNat 11 || c = Char.ofNat 12

/-- Python regex `\w` character class (ASCII part): alphanumeric or underscore.
Used by the `{{variable}}` reference pattern of `_substitute_variables`. -/
def isWordChar (c : Char) : Bool :=
  c.isAlphanum || c = '_'

/-- The tokenizer's word class in `_tokenize`: `ch.isalnum() or ch == "_" or ch == "."`. -/
def isTokWord (c : Char) : Bool :=
  c.isAlphanum || c = '_' || c = '.'

/-- Python `str.strip()` on a character list: drop leading and trailing whitespace. -/
def pyStripL (l : List Char) : List Char :=
  ((l.dropWhile pyIsSpace).reverse.dropWhile pyIsSpace).reverse

/-- Python `str.strip()` on a `String`. -/
def pyStrip (s : String) : String :=
  String.mk (pyStripL s.data)

/-- Values a recipe context can hold, as far as the evaluator inspects them:
`None`, booleans, integers, strings and nested dictionaries
(`context: dict[str, Any]` with dotted-path lookup into sub-dictionaries). -/
inductive Value where
  | vnone : Value
  | vbool : Bool → Value
  | vint : Int → Value
  | vstr : String → Value
  | vdict : List (String × Value) → Value

/-- A context: the `dict[str, Any]` passed to `evaluate_condition`,
modelled as an association list with first-match lookup. -/
abbrev Ctx := List (String × Value)

/-- Python `part in value` / `value[part]` on a dictionary. -/
def lookupCtx (d : Ctx) (k : String) : Option Value :=
  match d with
  | [] => Option.none
  | (k1, v) :: r => if k1 = k then some v else lookupCtx r k

/-- Python `path.split(".")` on a character list (separator is a single dot). -/
def splitDots (l : List Char) : List (List Char) :=
  match l with
  | [] => [[]]
  | c :: r =>
    if c = '.' then [] :: splitDots r
    else
      match splitDots r with
      | [] => [[c]]
      | s :: ss => (c :: s) :: ss

/-- The loop body of `_resolve_variable`: walk the dotted parts through nested
dictionaries; any missing key or non-dictionary intermediate yields `None`. -/
def resolveGo (parts : List String) (v : Value) : Value :=
  match parts with
  | [] => v
  | p :: ps =>
    match v with
    | Value.vdict d =>
      match lookupCtx d p with
      | some v1 => resolveGo ps v1
      | Option.none => Value.vnone
    | _ => Value.vnone

/-- `_resolve_variable(path, context)`: resolve a dotted variable path;
returns `Value.vnone` when the path does not resolve (Python returns `None`). -/
def resolve_variable (path : String) (context : Ctx) : Value :=
  resolveGo ((splitDots path.data).map String.mk) (Value.vdict context)

/-- Python `repr` of a string for the dictionary case of `str(value)`:
single quotes unless the text contains a single quote and no double quote,
in which case double quotes are used (escapes beyond the quote choice are
not modelled; no claim exercises them). -/
def pyReprStr (s : String) : String :=
  if s.data.contains squote && !(s.data.contains dquote) then
    String.mk [dquote] ++ s ++ String.mk [dquote]
  else
    squoteStr ++ s ++ squoteStr

mutual
/-- Python `str(value)`/`repr(value)` for values nested inside a dictionary. -/
def pyReprV (v : Value) : String :=
  match v with
  | Value.vnone => "None"
  | Value.vbool b => if b then "True" else "False"
  | Value.vint n => toString n
  | Value.vstr s => pyReprStr s
  | Value.vdict d => "\x7b" ++ pyReprFields d ++ "\x7d"

/-- Comma-joined `key: value` reprs of a dictionary's fields. -/
def pyReprFields (d : List (String × Value)) : String :=
  match d with
  | [] => ""
  | [(k, v)] => pyReprStr k ++ ": " ++ pyReprV v
  | (k, v) :: r => pyReprStr k ++ ": " ++ pyReprV v ++ ", " ++ pyReprFields r
end

/-- Python `str(value)` as used by the final branch of `replace_var`. -/
def strOfValue (v : Value) : String :=
  match v with
  | Value.vnone => "None"
  | Value.vbool b => if b then "True" else "False"
  | Value.vint n => toString n
  | Value.vstr s => s
  | Value.vdict d => "\x7b" ++ pyReprFields d ++ "\x7d"

/-- The `replace_var` closure of `_substitute_variables`: resolve the path and
render the value — error on `None`, quote strings, lower-case booleans,
`str()` for everything else. -/
def replaceVar (varPath : String) (context : Ctx) : Except String String :=
  match resolve_variable varPath context with
  | Value.vnone => Except.error ("Undefined variable: " ++ varPath)
  | Value.vstr s => Except.ok (squoteStr ++ s ++ squoteStr)
  | Value.vbool b => Except.ok (if b then "true" else "false")
  | v => Except.ok (strOfValue v)

/-- Greedy continuation of the `\w+(?:\.\w+)*` path match: repeatedly extend the
accumulated path with `.` followed by a nonempty word run.  Fuel bounds the
number of extensions; the wrapper supplies more fuel than characters. -/
def scanPathGo : Nat → List Char → List Char → (List Char × List Char)
  | 0, acc, r => (acc, r)
  | fuel + 1, acc, r =>
    match r with
    | c :: r1 =>
      if c = '.' then
        let w := r1.takeWhile isWordChar
        if w = [] then (acc, r)
        else scanPathGo fuel (acc ++ '.' :: w) (r1.dropWhile isWordChar)
      else (acc, r)
    | [] => (acc, r)

/-- Match the regex `\w+(?:\.\w+)*` at the head of `l`: returns the matched
path and the remaining characters, or `none` when no word character starts `l`.
(For this pattern greedy matching without backtracking equals regex matching:
a shorter match always leaves a dot or word character where `}}` is required.) -/
def scanPath (l : List Char) : Option (List Char × List Char) :=
  let w := l.takeWhile isWordChar
  if w = [] then Option.none
  else some (scanPathGo (l.length + 1) w (l.dropWhile isWordChar))

/-- Attempt to match `\{\{(\w+(?:\.\w+)*)\}\}` at one position: `c` is the
current character, `rest` the characters after it.  Returns the captured path
and the characters after the closing braces. -/
def substMatch (c : Char) (rest : List Char) : Option (List Char × List Char) :=
  if c = lbrace then
    match rest with
    | c2 :: rest2 =>
      if c2 = lbrace then
        match scanPath rest2 with
        | some (path, t1 :: t2 :: rest3) =>
          if t1 = rbrace ∧ t2 = rbrace then some (path, rest3) else Option.none
        | _ => Option.none
      else Option.none
    | [] => Option.none
  else Option.none

/-- The scan of `re.sub` over the expression for `_substitute_variables`:
at each position try the reference pattern; on a match emit the replacement
and continue after the match (replacements are not rescanned), otherwise copy
one character.  Fuel decreases once per position. -/
def substGo (context : Ctx) : Nat → List Char → Except String (List Char)
  | 0, _ => Except.error "substitution fuel exhausted"
  | _ + 1, [] => Except.ok []
  | fuel + 1, c :: rest =>
    match substMatch c rest with
    | some (path, rest3) =>
      match replaceVar (String.mk path) context with
      | Except.error e => Except.error e
      | Except.ok rep =>
        match substGo context fuel rest3 with
        | Except.error e => Except.error e
        | Except.ok tl => Except.ok (rep.data ++ tl)
    | Option.none =>
      match substGo context fuel rest with
      | Except.error e => Except.error e
      | Except.ok tl => Except.ok (c :: tl)

/-- `_substitute_variables(expression, context)`: replace every
`{{dotted.path}}` reference with the rendered value of the path. -/
def substitute_variables (expression : String) (context : Ctx) : Except String String :=
  match substGo context (expression.data.length + 1) expression.data with
  | Except.error e => Except.error e
  | Except.ok l => Except.ok (String.mk l)

/-- Scan for the closing quote of a string literal: returns the content before
the first occurrence of `q` and the characters after it, or `none` when `q`
does not occur (the unterminated case). -/
def strSpan (q : Char) : List Char → Option (List Char × List Char)
  | [] => Option.none
  | c :: r =>
    if c = q then some ([], r)
    else
      match strSpan q r with
      | some (a, b) => some (c :: a, b)
      | Option.none => Option.none

/-- Two-character operator test of `_tokenize`:
`expression[i : i + 2] in ("==", "!=", ">=", "<=")`. -/
def twoCharOp (c c2 : Char) : Bool :=
  (c = '=' && c2 = '=') || (c = '!' && c2 = '=') || (c = '>' && c2 = '=') ||
    (c = '<' && c2 = '=')

/-- The scanning loop of `_tokenize`: whitespace, quoted strings, parentheses,
two-character operators, `<`/`>`, word runs; anything else is a syntax error.
`pos` tracks the source position for error messages; fuel decreases once per
loop iteration (each iteration consumes at least one character). -/
def tokenizeGo : Nat → Nat → List Char → Except String (List String)
  | 0, _, _ => Except.error "tokenizer fuel exhausted"
  | _ + 1, _, [] => Except.ok []
  | fuel + 1, pos, c :: rest =>
    if pyIsSpace c then tokenizeGo fuel (pos + 1) rest
    else if c = squote || c = dquote then
      match strSpan c rest with
      | Option.none =>
        Except.error ("Unterminated string literal starting at position " ++ toString pos)
      | some (content, rest1) =>
        match tokenizeGo fuel (pos + content.length + 2) rest1 with
        | Except.error e => Except.error e
        | Except.ok ts => Except.ok (String.mk (c :: (content ++ [c])) :: ts)
    else if c = '(' || c = ')' then
      match tokenizeGo fuel (pos + 1) rest with
      | Except.error e => Except.error e
      | Except.ok ts => Except.ok (String.mk [c] :: ts)
    else
      match rest with
      | c2 :: rest2 =>
        if twoCharOp c c2 then
          match tokenizeGo fuel (pos + 2) rest2 with
          | Except.error e => Except.error e
          | Except.ok ts => Except.ok (String.mk [c, c2] :: ts)
        else if c = '<' || c = '>' then
          match tokenizeGo fuel (pos + 1) rest with
          | Except.error e => Except.error e
          | Except.ok ts => Except.ok (String.mk [c] :: ts)
        else if isTokWord c then
          match tokenizeGo fuel (pos + (List.takeWhile isTokWord (c :: rest)).length)
              (List.dropWhile isTokWord (c :: rest)) with
          | Except.error e => Except.error e
          | Except.ok ts => Except.ok (String.mk (List.takeWhile isTokWord (c :: rest)) :: ts)
        else
          Except.error ("Unexpected character " ++ squoteStr ++ String.mk [c] ++ squoteStr
            ++ " at position " ++ toString pos)
      | [] =>
        if c = '<' || c = '>' then
          match tokenizeGo fuel (pos + 1) [] with
          | Except.error e => Except.error e
          | Except.ok ts => Except.ok (String.mk [c] :: ts)
        else if isTokWord c then
          match tokenizeGo fuel (pos + 1) [] with
          | Except.error e => Except.error e
          | Except.ok ts => Except.ok (String.mk [c] :: ts)
        else
          Except.error ("Unexpected character " ++ squoteStr ++ String.mk [c] ++ squoteStr
            ++ " at position " ++ toString pos)

/-- `_tokenize(expression)`: token list of the substituted expression. -/
def tokenize (expression : List Char) : Except String (List String) :=
  tokenizeGo (expression.length + 1) 0 expression

/-- Decimal digits to a natural number. -/
def digitsToNat (ds : List Char) : Nat :=
  ds.foldl (fun a c => a * 10 + (c.toNat - 48)) 0

/-- ASCII lower-casing of one character, for the case-insensitive
`inf` / `infinity` / `nan` spellings accepted by `float()`. -/
def lowerChar (c : Char) : Char :=
  if 65 ≤ c.toNat && c.toNat ≤ 90 then Char.ofNat (c.toNat + 32) else c

/-- Case-insensitive match of a character list against a fixed word. -/
def lowerEq (cs : List Char) (t : String) : Bool :=
  cs.map lowerChar == t.data

/-- A character allowed inside a digit span of `float()`'s grammar:
a decimal digit or a PEP 515 underscore separator. -/
def isUChar (c : Char) : Bool := c.isDigit || c = '_'

/-- No two adjacent underscores in a digit span. -/
def noDoubleU : List Char → Bool
  | a :: b :: t => !(a = '_' && b = '_') && noDoubleU (b :: t)
  | _ => true

/-- A digit span with underscores is well formed when it starts and ends with
a digit and never has two adjacent underscores — i.e. every underscore sits
between two digits, the rule `float()` enforces for PEP 515 separators. -/
def validUSpan (ds : List Char) : Bool :=
  (match ds.head? with | some c => c.isDigit | Option.none => false) &&
  (match ds.getLast? with | some c => c.isDigit | Option.none => false) &&
  noDoubleU ds

/-- Fueled exponentiation by squaring (kernel-reducible in logarithmic depth,
unlike the unary unfolding of `Nat.pow` at exponents in the hundreds). -/
def powGo (b : Nat) : Nat → Nat → Nat
  | 0, _ => 1
  | fuel + 1, k =>
    if k = 0 then 1
    else
      let h := powGo b fuel (k / 2)
      if k % 2 = 0 then h * h else b * h * h

/-- `b ^ k` via `powGo` (fuel `k` dominates `log₂ k`). -/
def npow (b k : Nat) : Nat := powGo b k k

/-- Fueled base-two logarithm on naturals. -/
def natLog2Go : Nat → Nat → Nat
  | 0, _ => 0
  | fuel + 1, n => if 2 ≤ n then natLog2Go fuel (n / 2) + 1 else 0

/-- `⌊log₂ n⌋` for `n ≥ 1` (and `0` at `0`). -/
def natLog2 (n : Nat) : Nat := natLog2Go n n

/-- Round `a / b` (`b > 0`) to the nearest integer, ties to even — the IEEE
round-to-nearest-even rule at a fixed ulp. -/
def rndHalfEven (a b : Nat) : Nat :=
  let q := a / b
  let r := a % b
  if 2 * r < b then q
  else if b < 2 * r then q + 1
  else if q % 2 = 0 then q else q + 1

/-- `⌊log₂ (n / d)⌋` for positive naturals: locate the binade of `n / d`. -/
def ilog2Q (n d : Nat) : Int :=
  let l0 : Int := (natLog2 n : Int) - (natLog2 d : Int)
  if 0 ≤ l0 then (if d * npow 2 l0.toNat ≤ n then l0 else l0 - 1)
  else (if d ≤ n * npow 2 (-l0).toNat then l0 else l0 - 1)

/-- An IEEE-754 binary64 value as Python holds it: NaN, a signed infinity
(`true` = negative), or a finite dyadic `m * 2 ^ e`.  Finite doubles are
exact dyadic rationals, so exact dyadic comparison below is exactly the
machine comparison. -/
inductive PyFloat where
  | nan : PyFloat
  | inf : Bool → PyFloat
  | finite : Int → Int → PyFloat

/-- Round the positive rational `n / d` to the nearest binary64 value (ties
to even): take the binade `l`, round at ulp `2 ^ (l - 52)` — clamped to
`2 ^ (-1074)` in the subnormal range — and overflow to infinity at
`2 ^ 1024`, exactly as `float()`'s correctly-rounded string conversion. -/
def roundPos (neg : Bool) (n d : Nat) : PyFloat :=
  let l := ilog2Q n d
  let e : Int := max (l - 52) (-1074)
  let a := n * npow 2 (-e).toNat
  let b := d * npow 2 e.toNat
  let m := rndHalfEven a b
  if npow 2 2098 ≤ m * npow 2 (e + 1074).toNat then PyFloat.inf neg
  else PyFloat.finite ((if neg then -1 else 1) * (m : Int)) e

/-- `_try_numeric(value)`: Python `float(value)`.  Strip surrounding
whitespace, read an optional sign, then either a case-insensitive `inf`,
`infinity` or `nan`, or a decimal literal — digit spans with optional
PEP 515 underscores between digits (ASCII digits), an optional fractional
part and an optional signed exponent, with at least one mantissa digit —
whose exact rational value is rounded to the nearest binary64 value.
`none` exactly when `float()` raises `ValueError`. -/
def try_numeric (s : String) : Option PyFloat :=
  let cs := pyStripL s.data
  let neg : Bool := cs.head? = some '-'
  let cs1 := if cs.head? = some '-' || cs.head? = some '+' then cs.tail else cs
  if lowerEq cs1 "inf" || lowerEq cs1 "infinity" then some (PyFloat.inf neg)
  else if lowerEq cs1 "nan" then some PyFloat.nan
  else
  let ip := cs1.takeWhile isUChar
  let cs2 := cs1.dropWhile isUChar
  if !(ip.isEmpty || validUSpan ip) then Option.none
  else
  let hasDot : Bool := cs2.head? = some '.'
  let fp := if hasDot then cs2.tail.takeWhile isUChar else []
  let cs3 := if hasDot then cs2.tail.dropWhile isUChar else cs2
  if !(fp.isEmpty || validUSpan fp) then Option.none
  else
  let ipd := ip.filter Char.isDigit
  let fpd := fp.filter Char.isDigit
  if ipd = [] && fpd = [] then Option.none
  else
    let mkVal : Nat → Nat → PyFloat := fun num den =>
      if num = 0 then PyFloat.finite 0 0 else roundPos neg num den
    let mant : Nat := digitsToNat (ipd ++ fpd)
    match cs3 with
    | [] => some (mkVal mant (npow 10 fpd.length))
    | e :: cs4 =>
      if e = 'e' || e = 'E' then
        let eneg : Bool := cs4.head? = some '-'
        let cs5 := if cs4.head? = some '-' || cs4.head? = some '+' then cs4.tail else cs4
        let ed := cs5.takeWhile isUChar
        let cs6 := cs5.dropWhile isUChar
        if ed.isEmpty || !(validUSpan ed) || !cs6.isEmpty then Option.none
        else
          let ex := digitsToNat (ed.filter Char.isDigit)
          if eneg then some (mkVal mant (npow 10 fpd.length * npow 10 ex))
          else some (mkVal (mant * npow 10 ex) (npow 10 fpd.length))
      else Option.none

/-- Strict lexicographic order on character lists by code point:
Python string `<`. -/
def lexLt : List Char → List Char → Bool
  | _, [] => false
  | [], _ :: _ => true
  | a :: as, b :: bs =>
    if a.toNat < b.toNat then true else if b.toNat < a.toNat then false else lexLt as bs

/-- Python string `<` on `String`. -/
def pyStrLt (a b : String) : Bool := lexLt a.data b.data

/-- Python string `<=` on `String` (total order: `a <= b` iff not `b < a`). -/
def pyStrLe (a b : String) : Bool := !(pyStrLt b a)

/-- The string-comparison branch of `_parse_comparison`. -/
def strCompare (op : String) (a b : String) : Bool :=
  if op == "==" then a == b
  else if op == "!=" then !(a == b)
  else if op == "<" then pyStrLt a b
  else if op == ">" then pyStrLt b a
  else if op == ">=" then !(pyStrLt a b)
  else if op == "<=" then !(pyStrLt b a)
  else false

/-- `m₁ 2^e₁ < m₂ 2^e₂` on dyadic rationals, clearing the exponents. -/
def dyadicLt (m1 e1 m2 e2 : Int) : Bool :=
  if e1 ≤ e2 then decide (m1 < m2 * (npow 2 (e2 - e1).toNat : Int))
  else decide (m1 * (npow 2 (e1 - e2).toNat : Int) < m2)

/-- `m₁ 2^e₁ = m₂ 2^e₂` on dyadic rationals, clearing the exponents. -/
def dyadicEq (m1 e1 m2 e2 : Int) : Bool :=
  if e1 ≤ e2 then decide (m1 = m2 * (npow 2 (e2 - e1).toNat : Int))
  else decide (m1 * (npow 2 (e1 - e2).toNat : Int) = m2)

/-- IEEE-754 `<` as Python compares floats: NaN is incomparable, the
infinities bound everything, finite values compare exactly. -/
def pyNumLt (x y : PyFloat) : Bool :=
  match x, y with
  | PyFloat.nan, _ => false
  | _, PyFloat.nan => false
  | PyFloat.inf a, PyFloat.inf b => a && !b
  | PyFloat.inf a, PyFloat.finite _ _ => a
  | PyFloat.finite _ _, PyFloat.inf b => !b
  | PyFloat.finite m1 e1, PyFloat.finite m2 e2 => dyadicLt m1 e1 m2 e2

/-- IEEE-754 `==` as Python compares floats: `nan == nan` is false. -/
def pyNumEq (x y : PyFloat) : Bool :=
  match x, y with
  | PyFloat.nan, _ => false
  | _, PyFloat.nan => false
  | PyFloat.inf a, PyFloat.inf b => a == b
  | PyFloat.inf _, PyFloat.finite _ _ => false
  | PyFloat.finite _ _, PyFloat.inf _ => false
  | PyFloat.finite m1 e1, PyFloat.finite m2 e2 => dyadicEq m1 e1 m2 e2

/-- IEEE-754 `<=`: false whenever NaN is involved. -/
def pyNumLe (x y : PyFloat) : Bool :=
  pyNumLt x y || pyNumEq x y

/-- The numeric-comparison branch of `_parse_comparison`: Python's six float
comparisons (note `!=` is true on NaN while `<=`/`>=` are false). -/
def numCompare (op : String) (x y : PyFloat) : Bool :=
  if op == "==" then pyNumEq x y
  else if op == "!=" then !(pyNumEq x y)
  else if op == "<" then pyNumLt x y
  else if op == ">" then pyNumLt y x
  else if op == ">=" then pyNumLe y x
  else if op == "<=" then pyNumLe x y
  else false

/-- `_is_truthy(value)`: everything is truthy except the six listed literals. -/
def is_truthy (value : String) : Bool :=
  !(value == "false" || value == "False" || value == "" || value == "0" ||
    value == "none" || value == "None")

/-- `token.startswith(q) and token.endswith(q)` for a one-character `q`. -/
def isQuotedBy (q : Char) (t : String) : Bool :=
  (t.data.head? == some q) && (t.data.getLast? == some q)

/-- The quote-stripping used by `_parse_comparison` and for truthiness:
`token[1:-1]` when the token both starts and ends with the same quote kind. -/
def stripQuotes (t : String) : String :=
  if isQuotedBy squote t || isQuotedBy dquote t then
    String.mk ((t.data.drop 1).dropLast)
  else t

/-- Membership in `_Parser.COMPARISON_OPS`. -/
def isCompOp (t : String) : Bool :=
  t == "==" || t == "!=" || t == "<" || t == ">" || t == ">=" || t == "<="

/-- The comparison-operator body of `_parse_comparison`: strip quotes from both
operand tokens, compare numerically when both parse as numbers, otherwise
compare as strings. -/
def compareVals (leftVal op rightVal : String) : Bool :=
  let leftCmp := stripQuotes leftVal
  let rightCmp := stripQuotes rightVal
  match try_numeric leftCmp, try_numeric rightCmp with
  | some ln, some rn => numCompare op ln rn
  | _, _ => strCompare op leftCmp rightCmp

/-- `_Parser._peek`: current token or `none` at the end. -/
def peek (ts : List String) (pos : Nat) : Option String :=
  ts.get? pos

mutual
/-- `_Parser._parse_or`: `and_expr ("or" and_expr)*`. -/
def parseOr : Nat → List String → Nat → Except String (Bool × Nat)
  | 0, _, _ => Except.error "parser fuel exhausted"
  | fuel + 1, ts, pos =>
    match parseAnd fuel ts pos with
    | Except.error e => Except.error e
    | Except.ok (left, pos1) => parseOrLoop fuel ts pos1 left
termination_by structural fuel _ _ => fuel

/-- The `while self._peek() == "or"` loop of `_parse_or`. -/
def parseOrLoop : Nat → List String → Nat → Bool → Except String (Bool × Nat)
  | 0, _, _, _ => Except.error "parser fuel exhausted"
  | fuel + 1, ts, pos, left =>
    if peek ts pos = some "or" then
      match parseAnd fuel ts (pos + 1) with
      | Except.error e => Except.error e
      | Except.ok (right, pos1) => parseOrLoop fuel ts pos1 (left || right)
    else Except.ok (left, pos)
termination_by structural fuel _ _ _ => fuel

/-- `_Parser._parse_and`: `not_expr ("and" not_expr)*`. -/
def parseAnd : Nat → List String → Nat → Except String (Bool × Nat)
  | 0, _, _ => Except.error "parser fuel exhausted"
  | fuel + 1, ts, pos =>
    match parseNot fuel ts pos with
    | Except.error e => Except.error e
    | Except.ok (left, pos1) => parseAndLoop fuel ts pos1 left
termination_by structural fuel _ _ => fuel

/-- The `while self._peek() == "and"` loop of `_parse_and`. -/
def parseAndLoop : Nat → List String → Nat → Bool → Except String (Bool × Nat)
  | 0, _, _, _ => Except.error "parser fuel exhausted"
  | fuel + 1, ts, pos, left =>
    if peek ts pos = some "and" then
      match parseNot fuel ts (pos + 1) with
      | Except.error e => Except.error e
      | Except.ok (right, pos1) => parseAndLoop fuel ts pos1 (left && right)
    else Except.ok (left, pos)
termination_by structural fuel _ _ _ => fuel

/-- `_Parser._parse_not`: `"not" not_expr | comparison` (chainable). -/
def parseNot : Nat → List String → Nat → Except String (Bool × Nat)
  | 0, _, _ => Except.error "parser fuel exhausted"
  | fuel + 1, ts, pos =>
    if peek ts pos = some "not" then
      match parseNot fuel ts (pos + 1) with
      | Except.error e => Except.error e
      | Except.ok (v, pos1) => Except.ok (!v, pos1)
    else parseComparison fuel ts pos
termination_by structural fuel _ _ => fuel

/-- `_Parser._parse_comparison`: `atom (comp_op atom)?`; without an operator the
atom is evaluated by truthiness after quote stripping. -/
def parseComparison : Nat → List String → Nat → Except String (Bool × Nat)
  | 0, _, _ => Except.error "parser fuel exhausted"
  | fuel + 1, ts, pos =>
    match parseAtom fuel ts pos with
    | Except.error e => Except.error e
    | Except.ok (leftVal, pos1) =>
      match peek ts pos1 with
      | some op =>
        if isCompOp op then
          match parseAtom fuel ts (pos1 + 1) with
          | Except.error e => Except.error e
          | Except.ok (rightVal, pos2) => Except.ok (compareVals leftVal op rightVal, pos2)
        else Except.ok (is_truthy (stripQuotes leftVal), pos1)
      | Option.none => Except.ok (is_truthy (stripQuotes leftVal), pos1)
termination_by structural fuel _ _ => fuel

/-- `_Parser._parse_atom`: parenthesized sub-expression (evaluated and replaced
by a synthetic `true`/`false` token), quoted literal, or bare value token;
keywords and operators in value position are errors. -/
def parseAtom : Nat → List String → Nat → Except String (String × Nat)
  | 0, _, _ => Except.error "parser fuel exhausted"
  | fuel + 1, ts, pos =>
    match peek ts pos with
    | Option.none => Except.error "Unexpected end of expression"
    | some token =>
      if token == "(" then
        match parseOr fuel ts (pos + 1) with
        | Except.error e => Except.error e
        | Except.ok (result, pos1) =>
          if peek ts pos1 = some ")" then
            Except.ok ((if result then "true" else "false"), pos1 + 1)
          else
            Except.error ("Expected " ++ squoteStr ++ ")" ++ squoteStr
              ++ " to close parenthesized expression")
      else if isQuotedBy squote token || isQuotedBy dquote token then
        Except.ok (token, pos + 1)
      else if token == "and" || token == "or" || token == "not" then
        Except.error ("Unexpected keyword " ++ squoteStr ++ token ++ squoteStr
          ++ " where value expected")
      else if token == ")" || isCompOp token then
        Except.error ("Unexpected operator " ++ squoteStr ++ token ++ squoteStr
          ++ " where value expected")
      else Except.ok (token, pos + 1)
termination_by structural fuel _ _ => fuel
end

/-- Fuel passed to the parser by `Parser.parse`; provably enough for any token
list (every five levels of descent consume at least one token). -/
def parseFuel (ts : List String) : Nat := 10 * ts.length + 10

/-- `_Parser.parse`: parse the whole token list; tokens left unconsumed after
the top-level `or`-expression are a syntax error. -/
def Parser.parse (ts : List String) : Except String Bool :=
  match parseOr (parseFuel ts) ts 0 with
  | Except.error e => Except.error e
  | Except.ok (result, pos) =>
    if pos < ts.length then
      Except.error ("Unexpected token " ++ squoteStr ++ ts.getD pos "" ++ squoteStr
        ++ " at position " ++ toString pos)
    else Except.ok result

/-- `_evaluate_expression(expr)`: strip, empty means `True`, else tokenize and
parse. -/
def evaluate_expression (expr : List Char) : Except String Bool :=
  let e := pyStripL expr
  if e = [] then Except.ok true
  else
    match tokenize e with
    | Except.error er => Except.error er
    | Except.ok ts => Parser.parse ts

/-- `evaluate_condition(expression, context)`: empty or whitespace-only
expressions are `True`; otherwise substitute `{{...}}` references and evaluate
the substituted, stripped text. -/
def evaluate_condition (expression : String) (context : Ctx) : Except String Bool :=
  if expression.data = [] ∨ pyStripL expression.data = [] then Except.ok true
  else
    match substitute_variables expression context with
    | Except.error e => Except.error e
    | Except.ok substituted => evaluate_expression (pyStripL substituted.data)

/-- `is_glob_pattern(model_hint)`: `any(c in model_hint for c in "*?[")`. -/
def is_glob_pattern (model_hint : String) : Bool :=
  model_hint.data.contains '*' || model_hint.data.contains '?' ||
    model_hint.data.contains '['

/-- Parse an fnmatch bracket expression after its opening `[`: optional `!`
negation, a `]` immediately after the negation is a literal member, then the
contents up to the closing `]`.  `none` when the bracket is unclosed (the `[`
is then a literal character). -/
def scanBracket (l : List Char) : Option (Bool × List Char × List Char) :=
  let neg : Bool := l.head? = some '!'
  let l1 := if l.head? = some '!' then l.tail else l
  match l1 with
  | ']' :: r =>
    match strSpan ']' r with
    | some (content, rest) => some (neg, ']' :: content, rest)
    | Option.none => Option.none
  | _ =>
    match strSpan ']' l1 with
    | some (content, rest) => some (neg, content, rest)
    | Option.none => Option.none

/-- Membership of a character in fnmatch bracket contents, with `x-y` ranges. -/
def bracketMatches : List Char → Char → Bool
  | a :: '-' :: b :: rest, c =>
    (a.val ≤ c.val && c.val ≤ b.val) || bracketMatches rest c
  | a :: rest, c => (a = c) || bracketMatches rest c
  | [], _ => false

/-- The fnmatch glob matcher: `*` matches any run, `?` any one character,
`[...]`/`[!...]` a (negated) character class, everything else literally; the
whole name must be consumed.  Fuel decreases on every call; each call shrinks
the pattern or the name, so `pattern length + name length + 1` suffices. -/
def globMatchGo : Nat → List Char → List Char → Bool
  | 0, _, _ => false
  | fuel + 1, p, name =>
    match p with
    | [] => name.isEmpty
    | '*' :: ps =>
      globMatchGo fuel ps name ||
        (match name with
         | [] => false
         | _ :: ns => globMatchGo fuel ('*' :: ps) ns)
    | '?' :: ps =>
      (match name with
       | [] => false
       | _ :: ns => globMatchGo fuel ps ns)
    | '[' :: ps =>
      (match scanBracket ps with
       | some (neg, items, prest) =>
         (match name with
          | [] => false
          | n :: ns =>
            (if neg then !(bracketMatches items n) else bracketMatches items n) &&
              globMatchGo fuel prest ns)
       | Option.none =>
         (match name with
          | [] => false
          | n :: ns => ('[' = n) && globMatchGo fuel ps ns))
    | pc :: ps =>
      (match name with
       | [] => false
       | n :: ns => (pc = n) && globMatchGo fuel ps ns)

/-- `fnmatch.fnmatch(name, pattern)` (POSIX case preservation). -/
def globMatch (pattern name : List Char) : Bool :=
  globMatchGo (pattern.length + name.length + 1) pattern name

/-- Insert into a descending-sorted list, keeping it descending. -/
def insertDesc (x : String) : List String → List String
  | [] => [x]
  | y :: ys => if pyStrLe y x then x :: y :: ys else y :: insertDesc x ys

/-- `matched.sort(reverse=True)`: sort descending under Python string order
(insertion sort; on a total order it computes the same list as any stable
sort). -/
def sortDesc (l : List String) : List String :=
  l.foldr insertDesc []

/-- `ModelResolutionResult` of `model_resolver.py`. -/
structure ModelResolutionResult where
  resolved_model : String
  pattern : Option String
  available_models : Option (List String)
  matched_models : Option (List String)

/-- `resolve_model_pattern(model_hint, provider_name, coordinator)`.  The
coordinator interaction (provider lookup by name, `list_models()`, and the
exception handler around them) only determines the list of available model
identifiers; that list is taken here as the `available_models` argument, with
`[]` for a missing provider entry, a provider without `list_models`, or a
query failure.  A non-pattern hint, a falsy provider name, no available
models, or no match each return the hint unchanged; otherwise the matches are
sorted descending and the first is returned. -/
def resolve_model_pattern (model_hint : String) (provider_name : Option String)
    (available_models : List String) : ModelResolutionResult :=
  if !(is_glob_pattern model_hint) then
    ⟨model_hint, Option.none, Option.none, Option.none⟩
  else if provider_name = Option.none ∨ provider_name = some "" then
    ⟨model_hint, some model_hint, Option.none, Option.none⟩
  else if available_models = [] then
    ⟨model_hint, some model_hint, some [], some []⟩
  else
    let matched := available_models.filter (fun m => globMatch model_hint.data m.data)
    if matched = [] then
      ⟨model_hint, some model_hint, some available_models, some []⟩
    else
      let sorted := sortDesc matched
      ⟨sorted.headD model_hint, some model_hint, some available_models, some sorted⟩

/-- `AtomTok t`: the token `t` is parsed by `_parse_atom` as a direct value
token — it is not an opening parenthesis, a keyword, a closing parenthesis,
or a comparison operator. -/
def AtomTok (t : String) : Prop :=
  t ≠ "(" ∧ t ≠ "and" ∧ t ≠ "or" ∧ t ≠ "not" ∧ t ≠ ")" ∧ isCompOp t = false

/-- The `.seg₂.seg₃…` continuation of a dotted path, as characters. -/
def dotChainTail : List (List Char) → List Char
  | [] => []
  | s :: ss => ('.' :: s) ++ dotChainTail ss

/-- Nonempty word segments joined by dots, as characters. -/
def joinDots : List (List Char) → List Char
  | [] => []
  | s :: ss => s ++ dotChainTail ss

/-- The trailing-whitespace strip (second half of Python `str.strip()`). -/
def stripTrail (l : List Char) : List Char :=
  (l.reverse.dropWhile pyIsSpace).reverse

theorem string_mk_data (s : String) : String.mk s.data = s := rfl

theorem string_data_append (s t : String) : (s ++ t).data = s.data ++ t.data := rfl

theorem dropWhile_append_singleton {p : Char → Bool} {xs : List Char} {c : Char}
    (hc : p c = false) :
    List.dropWhile p (xs ++ [c]) = List.dropWhile p xs ++ [c] := by
  induction xs with
  | nil => simp [List.dropWhile, hc]
  | cons x xs ih =>
    by_cases hx : p x <;> simp [List.dropWhile, hx, ih]

theorem pyStripL_cons_nonspace {c : Char} {l : List Char} (hc : pyIsSpace c = false) :
    pyStripL (c :: l) = c :: stripTrail l := by
  unfold pyStripL stripTrail
  rw [List.dropWhile_cons, if_neg (by simp [hc])]
  rw [List.reverse_cons, dropWhile_append_singleton hc]
  simp

theorem mem_stripTrail {x : Char} {l : List Char} (h : x ∈ stripTrail l) : x ∈ l := by
  unfold stripTrail at h
  rw [List.mem_reverse] at h
  have := (List.dropWhile_sublist (p := pyIsSpace) (l := l.reverse)).mem h
  rwa [List.mem_reverse] at this

theorem pyStripL_nil_of_all {l : List Char} (h : ∀ x ∈ l, pyIsSpace x = true) :
    pyStripL l = [] := by
  unfold pyStripL
  rw [List.dropWhile_eq_nil_iff.mpr h]
  simp

theorem pyStripL_cons_ne_nil {c : Char} {l : List Char} (hc : pyIsSpace c = false) :
    pyStripL (c :: l) ≠ [] := by
  rw [pyStripL_cons_nonspace hc]
  simp

/-- C5: for every context and every expression that is empty or consists only
of whitespace characters, `evaluate_condition` returns `true` (the early
return happens before substitution or parsing touches anything). -/
theorem empty_condition_true (e : String) (c : Ctx)
    (h : ∀ x ∈ e.data, pyIsSpace x = true) :
    evaluate_condition e c = Except.ok true := by
  unfold evaluate_condition
  rw [if_pos (Or.inr (pyStripL_nil_of_all h))]

theorem empty_condition_true_witness :
    evaluate_condition " " [("y", Value.vint 3)] = Except.ok true :=
  empty_condition_true " " [("y", Value.vint 3)] (by decide)

/-- C7: `evaluate_condition` is a pure function of the expression and the
context: evaluations at equal inputs give equal results (the embedding threads
no state, and the context is consumed read-only). -/
theorem evaluate_condition_deterministic :
    ∀ (e1 e2 : String) (c1 c2 : Ctx), e1 = e2 → c1 = c2 →
      evaluate_condition e1 c1 = evaluate_condition e2 c2 := by
  intro e1 e2 c1 c2 h1 h2
  rw [h1, h2]

theorem evaluate_condition_deterministic_witness :
    evaluate_condition "x" [] = evaluate_condition "x" [] :=
  evaluate_condition_deterministic "x" "x" [] [] rfl rfl

theorem takeWhile_append_exact {p : Char → Bool} {w rest : List Char}
    (hw : ∀ c ∈ w, p c = true) (hr : ∀ c, rest.head? = some c → p c = false) :
    (w ++ rest).takeWhile p = w ∧ (w ++ rest).dropWhile p = rest := by
  induction w with
  | nil =>
    simp only [List.nil_append]
    cases rest with
    | nil => simp
    | cons r rs =>
      have hpr := hr r rfl
      exact ⟨by simp [List.takeWhile_cons, hpr], by simp [List.dropWhile_cons, hpr]⟩
  | cons x xs ih =>
    have hx : p x = true := hw x (by simp)
    have hxs : ∀ c ∈ xs, p c = true := fun c hc => hw c (by simp [hc])
    obtain ⟨h1, h2⟩ := ih hxs
    exact ⟨by simp [List.takeWhile_cons, hx, h1], by simp [List.dropWhile_cons, hx, h2]⟩

theorem head_notWord_dotChain {ss : List (List Char)} {tail : List Char}
    (htail : ∀ h, tail.head? = some h → isWordChar h = false) :
    ∀ h, (dotChainTail ss ++ tail).head? = some h → isWordChar h = false := by
  cases ss with
  | nil => simpa [dotChainTail] using htail
  | cons s ss =>
    intro h hh
    simp only [dotChainTail, List.cons_append, List.head?_cons, Option.some.injEq] at hh
    subst hh
    decide

theorem dotChainTail_len (ss : List (List Char)) : ss.length ≤ (dotChainTail ss).length := by
  induction ss with
  | nil => simp [dotChainTail]
  | cons s ss ih =>
    simp only [dotChainTail, List.length_cons, List.length_append, List.cons_append]
    omega

theorem scanPathGo_exact :
    ∀ (fuel : Nat) (segs : List (List Char)) (acc tail : List Char),
      (∀ s ∈ segs, s ≠ [] ∧ ∀ c ∈ s, isWordChar c = true) →
      (∀ h, tail.head? = some h → h ≠ '.' ∧ isWordChar h = false) →
      segs.length < fuel →
      scanPathGo fuel acc (dotChainTail segs ++ tail) = (acc ++ dotChainTail segs, tail) := by
  intro fuel segs
  induction segs generalizing fuel with
  | nil =>
    intro acc tail _ htail hfuel
    obtain ⟨f, rfl⟩ : ∃ f, fuel = f + 1 := ⟨fuel - 1, by omega⟩
    simp only [dotChainTail, List.nil_append, List.append_nil]
    cases tail with
    | nil => simp [scanPathGo]
    | cons t ts =>
      have hd := (htail t rfl).1
      simp [scanPathGo, hd]
  | cons s ss ih =>
    intro acc tail hsegs htail hfuel
    obtain ⟨f, rfl⟩ : ∃ f, fuel = f + 1 := ⟨fuel - 1, by omega⟩
    have hs := hsegs s (by simp)
    have hss : ∀ s1 ∈ ss, s1 ≠ [] ∧ ∀ c ∈ s1, isWordChar c = true :=
      fun s1 h1 => hsegs s1 (by simp [h1])
    have hrest : ∀ h, (dotChainTail ss ++ tail).head? = some h → isWordChar h = false :=
      head_notWord_dotChain (fun h hh => (htail h hh).2)
    obtain ⟨htake, hdrop⟩ := takeWhile_append_exact hs.2 hrest
    have hlt : ss.length < f := by
      simp only [List.length_cons] at hfuel
      omega
    simp only [dotChainTail, List.cons_append, List.append_assoc]
    rw [scanPathGo]
    simp only [if_pos rfl, htake, hdrop]
    rw [if_neg hs.1, ih f (acc ++ '.' :: s) tail hss htail hlt]
    simp

theorem scanPath_exact {segs : List (List Char)} {tail : List Char}
    (hne : segs ≠ [])
    (hsegs : ∀ s ∈ segs, s ≠ [] ∧ ∀ c ∈ s, isWordChar c = true)
    (htail : ∀ h, tail.head? = some h → h ≠ '.' ∧ isWordChar h = false) :
    scanPath (joinDots segs ++ tail) = some (joinDots segs, tail) := by
  cases segs with
  | nil => exact absurd rfl hne
  | cons s ss =>
    have hs := hsegs s (by simp)
    have hss : ∀ s1 ∈ ss, s1 ≠ [] ∧ ∀ c ∈ s1, isWordChar c = true :=
      fun s1 h1 => hsegs s1 (by simp [h1])
    have hrest : ∀ h, (dotChainTail ss ++ tail).head? = some h → isWordChar h = false :=
      head_notWord_dotChain (fun h hh => (htail h hh).2)
    obtain ⟨htake, hdrop⟩ := takeWhile_append_exact hs.2 hrest
    unfold scanPath
    simp only [joinDots, List.append_assoc, htake, hdrop]
    rw [if_neg hs.1]
    have hfuel : ss.length < (s ++ (dotChainTail ss ++ tail)).length + 1 := by
      have := dotChainTail_len ss
      simp only [List.length_append]
      omega
    rw [scanPathGo_exact _ ss s tail hss htail hfuel]

theorem substMatch_ref {segs : List (List Char)} {suffix : List Char}
    (hne : segs ≠ [])
    (hsegs : ∀ s ∈ segs, s ≠ [] ∧ ∀ c ∈ s, isWordChar c = true) :
    substMatch lbrace (lbrace :: (joinDots segs ++ rbrace :: rbrace :: suffix))
      = some (joinDots segs, suffix) := by
  have hscan : scanPath (joinDots segs ++ rbrace :: rbrace :: suffix)
      = some (joinDots segs, rbrace :: rbrace :: suffix) := by
    refine scanPath_exact hne hsegs ?_
    intro h hh
    simp only [List.head?_cons, Option.some.injEq] at hh
    subst hh
    constructor <;> decide
  unfold substMatch
  simp [hscan]

theorem string_data_mk (l : List Char) : (String.mk l).data = l := rfl

theorem substGo_step_match {c : Ctx} {fuel : Nat} {ch : Char} {rest path rest3 : List Char}
    (hm : substMatch ch rest = some (path, rest3)) :
    substGo c (fuel + 1) (ch :: rest) =
      match replaceVar (String.mk path) c with
      | Except.error e => Except.error e
      | Except.ok rep =>
        match substGo c fuel rest3 with
        | Except.error e => Except.error e
        | Except.ok tl => Except.ok (rep.data ++ tl) := by
  simp only [substGo]
  rw [hm]

theorem substGo_step_nomatch {c : Ctx} {fuel : Nat} {ch : Char} {rest : List Char}
    (hm : substMatch ch rest = Option.none) :
    substGo c (fuel + 1) (ch :: rest) =
      match substGo c fuel rest with
      | Except.error e => Except.error e
      | Except.ok tl => Except.ok (ch :: tl) := by
  simp only [substGo]
  rw [hm]

theorem splitDots_nodot {l : List Char} (h : ∀ ch ∈ l, ch ≠ '.') : splitDots l = [l] := by
  induction l with
  | nil => rfl
  | cons c r ih =>
    have hc := h c (by simp)
    have hr : ∀ ch ∈ r, ch ≠ '.' := fun ch hch => h ch (by simp [hch])
    simp [splitDots, hc, ih hr]

theorem evaluate_undef {segs : List (List Char)} {suffix : List Char} {c : Ctx}
    (hne : segs ≠ [])
    (hsegs : ∀ s ∈ segs, s ≠ [] ∧ ∀ ch ∈ s, isWordChar ch = true)
    (hres : resolve_variable (String.mk (joinDots segs)) c = Value.vnone) :
    evaluate_condition
        (String.mk (lbrace :: lbrace :: (joinDots segs ++ rbrace :: rbrace :: suffix))) c
      = Except.error ("Undefined variable: " ++ String.mk (joinDots segs)) := by
  have hrv : replaceVar (String.mk (joinDots segs)) c
      = Except.error ("Undefined variable: " ++ String.mk (joinDots segs)) := by
    unfold replaceVar
    rw [hres]
  have hsub : substitute_variables
      (String.mk (lbrace :: lbrace :: (joinDots segs ++ rbrace :: rbrace :: suffix))) c
      = Except.error ("Undefined variable: " ++ String.mk (joinDots segs)) := by
    unfold substitute_variables
    simp only [string_data_mk]
    rw [substGo_step_match (substMatch_ref hne hsegs), hrv]
  have hcond : ¬((String.mk (lbrace :: lbrace ::
      (joinDots segs ++ rbrace :: rbrace :: suffix))).data = [] ∨
      pyStripL (String.mk (lbrace :: lbrace ::
        (joinDots segs ++ rbrace :: rbrace :: suffix))).data = []) := by
    simp only [string_data_mk]
    push_neg
    exact ⟨by simp, pyStripL_cons_ne_nil (by decide)⟩
  unfold evaluate_condition
  rw [if_neg hcond, hsub]

/-- C3: an expression whose leading `{{dotted.path}}` reference does not
resolve in the context makes `evaluate_condition` fail with the
undefined-variable error, whatever follows the reference and whatever the
context; in particular the spec example raises. -/
theorem undefined_variable_raises :
    (∀ (segs : List (List Char)) (suffix : List Char) (c : Ctx),
      segs ≠ [] →
      (∀ s ∈ segs, s ≠ [] ∧ ∀ ch ∈ s, isWordChar ch = true) →
      resolve_variable (String.mk (joinDots segs)) c = Value.vnone →
      evaluate_condition
          (String.mk (lbrace :: lbrace :: (joinDots segs ++ rbrace :: rbrace :: suffix))) c
        = Except.error ("Undefined variable: " ++ String.mk (joinDots segs)))
    ∧ evaluate_condition ("\x7b\x7bmissing\x7d\x7d == " ++ squoteStr ++ "a" ++ squoteStr) []
        = Except.error "Undefined variable: missing" :=
  ⟨fun _ _ _ hne hsegs hres => evaluate_undef hne hsegs hres, rfl⟩

theorem undefined_variable_raises_witness :
    evaluate_condition
        (String.mk (lbrace :: lbrace :: (joinDots [['m']] ++ rbrace :: rbrace :: []))) []
      = Except.error ("Undefined variable: " ++ String.mk (joinDots [['m']])) :=
  undefined_variable_raises.1 [['m']] [] [] (by decide) (by decide) rfl

/-- C8: a `{{name}}` reference whose name maps to the value `None` produces
exactly the same undefined-variable error as a name absent from the context;
at the evaluator's interface the two contexts are indistinguishable. -/
theorem none_value_like_missing :
    ∀ (name : List Char) (suffix : List Char), name ≠ [] →
      (∀ ch ∈ name, isWordChar ch = true) →
      (∀ rest : Ctx,
        evaluate_condition
            (String.mk (lbrace :: lbrace :: (name ++ rbrace :: rbrace :: suffix)))
            ((String.mk name, Value.vnone) :: rest)
          = Except.error ("Undefined variable: " ++ String.mk name))
      ∧ (∀ c : Ctx, lookupCtx c (String.mk name) = Option.none →
        evaluate_condition
            (String.mk (lbrace :: lbrace :: (name ++ rbrace :: rbrace :: suffix))) c
          = Except.error ("Undefined variable: " ++ String.mk name)) := by
  intro name suffix hne hword
  have hnd : ∀ ch ∈ name, ch ≠ '.' := by
    intro ch hch heq
    have := hword ch hch
    subst heq
    simp [isWordChar, Char.isAlphanum, Char.isAlpha, Char.isUpper, Char.isLower,
      Char.isDigit] at this
  have hj : joinDots [name] = name := by simp [joinDots, dotChainTail]
  have hsegs : ∀ s ∈ [name], s ≠ [] ∧ ∀ ch ∈ s, isWordChar ch = true := by
    intro s hs
    simp only [List.mem_singleton] at hs
    subst hs
    exact ⟨hne, hword⟩
  constructor
  · intro rest
    have hres : resolve_variable (String.mk (joinDots [name]))
        ((String.mk name, Value.vnone) :: rest) = Value.vnone := by
      rw [hj]
      unfold resolve_variable
      simp only [string_data_mk]
      rw [splitDots_nodot hnd]
      simp [resolveGo, lookupCtx]
    have := @evaluate_undef [name] suffix
      ((String.mk name, Value.vnone) :: rest) (by simp) hsegs hres
    rwa [hj] at this
  · intro c hlook
    have hres : resolve_variable (String.mk (joinDots [name])) c = Value.vnone := by
      rw [hj]
      unfold resolve_variable
      simp only [string_data_mk]
      rw [splitDots_nodot hnd]
      simp [resolveGo, hlook]
    have := @evaluate_undef [name] suffix c (by simp) hsegs hres
    rwa [hj] at this

theorem none_value_like_missing_witness :
    evaluate_condition (String.mk (lbrace :: lbrace :: (['x'] ++ rbrace :: rbrace :: [])))
        [(String.mk ['x'], Value.vnone)]
      = Except.error ("Undefined variable: " ++ String.mk ['x']) :=
  (none_value_like_missing ['x'] [] (by decide) (by decide)).1 []

theorem word_not_dot {ch : Char} (h : isWordChar ch = true) : ch ≠ '.' := by
  intro heq
  subst heq
  revert h
  decide

/-- C9: variable substitution wraps a string value in single quotes verbatim,
with no escaping of quote characters inside the value; consequently a value
containing a single quote derails the written comparison — on the spec's
shape the evaluator fails with an unterminated-string syntax error instead of
comparing against `abc`. -/
theorem unescaped_quote_substitution :
    (∀ (name : List Char) (v : String) (c : Ctx),
      name ≠ [] → (∀ ch ∈ name, isWordChar ch = true) →
      lookupCtx c (String.mk name) = some (Value.vstr v) →
      substitute_variables
          (String.mk (lbrace :: lbrace :: (name ++ rbrace :: rbrace :: []))) c
        = Except.ok (squoteStr ++ v ++ squoteStr))
    ∧ evaluate_condition ("\x7b\x7bx\x7d\x7d == " ++ squoteStr ++ "abc" ++ squoteStr)
        [("x", Value.vstr ("it" ++ squoteStr ++ "s"))]
      = Except.error "Unterminated string literal starting at position 14" := by
  constructor
  · intro name v c hne hword hlook
    have hnd : ∀ ch ∈ name, ch ≠ '.' := fun ch hch => word_not_dot (hword ch hch)
    have hj : joinDots [name] = name := by simp [joinDots, dotChainTail]
    have hsegs : ∀ s ∈ [name], s ≠ [] ∧ ∀ ch ∈ s, isWordChar ch = true := by
      intro s hs
      simp only [List.mem_singleton] at hs
      subst hs
      exact ⟨hne, hword⟩
    have hres : resolve_variable (String.mk name) c = Value.vstr v := by
      unfold resolve_variable
      simp only [string_data_mk]
      rw [splitDots_nodot hnd]
      simp [resolveGo, hlook]
    have hrv : replaceVar (String.mk name) c = Except.ok (squoteStr ++ v ++ squoteStr) := by
      unfold replaceVar
      rw [hres]
    have hm := @substMatch_ref [name] [] (by simp) hsegs
    rw [hj] at hm
    unfold substitute_variables
    simp only [string_data_mk]
    rw [substGo_step_match hm, hrv]
    simp only [List.length_cons]
    simp only [substGo]
    simp only [List.append_nil]
  · rfl

theorem unescaped_quote_substitution_witness :
    substitute_variables
        (String.mk (lbrace :: lbrace :: (['x'] ++ rbrace :: rbrace :: [])))
        [(String.mk ['x'], Value.vstr "ab")]
      = Except.ok (squoteStr ++ "ab" ++ squoteStr) :=
  unescaped_quote_substitution.1 ['x'] "ab" [(String.mk ['x'], Value.vstr "ab")]
    (by decide) (by decide) rfl

theorem parseAtom_direct {f : Nat} {ts : List String} {pos : Nat} {t : String}
    (hget : peek ts pos = some t) (ht : AtomTok t) :
    parseAtom (f + 1) ts pos = Except.ok (t, pos + 1) := by
  obtain ⟨h1, h2, h3, h4, h5, h6⟩ := ht
  by_cases hq : (isQuotedBy squote t || isQuotedBy dquote t) = true
  · simp [parseAtom, hget, h1, hq]
  · simp [parseAtom, hget, h1, h2, h3, h4, h5, h6, hq]

theorem parseOr_single (f : Nat) (t : String) (ht : AtomTok t) :
    parseOr (f + 6) [t] 0 = Except.ok (is_truthy (stripQuotes t), 1) := by
  have hatom : parseAtom (f + 2) [t] 0 = Except.ok (t, 1) :=
    parseAtom_direct (f := f + 1) rfl ht
  rw [show f + 6 = (f + 5) + 1 from rfl]
  simp only [parseOr]
  rw [show f + 5 = (f + 4) + 1 from rfl]
  simp only [parseAnd]
  rw [show f + 4 = (f + 3) + 1 from rfl]
  simp only [parseNot]
  rw [if_neg (show ¬(peek [t] 0 = some "not") by simp [peek, ht.2.2.2.1])]
  rw [show f + 3 = (f + 2) + 1 from rfl]
  simp only [parseComparison]
  rw [hatom]
  rfl

theorem parseOr_triple (f : Nat) (l op r : String) (hl : AtomTok l) (hr : AtomTok r)
    (hop : isCompOp op = true) :
    parseOr (f + 6) [l, op, r] 0 = Except.ok (compareVals l op r, 3) := by
  have hatomL : parseAtom (f + 2) [l, op, r] 0 = Except.ok (l, 1) :=
    parseAtom_direct (f := f + 1) rfl hl
  have hatomR : parseAtom (f + 2) [l, op, r] (1 + 1) = Except.ok (r, 3) :=
    parseAtom_direct (f := f + 1) rfl hr
  rw [show f + 6 = (f + 5) + 1 from rfl]
  simp only [parseOr]
  rw [show f + 5 = (f + 4) + 1 from rfl]
  simp only [parseAnd]
  rw [show f + 4 = (f + 3) + 1 from rfl]
  simp only [parseNot]
  rw [if_neg (show ¬(peek [l, op, r] 0 = some "not") by simp [peek, hl.2.2.2.1])]
  rw [show f + 3 = (f + 2) + 1 from rfl]
  simp only [parseComparison]
  rw [hatomL]
  simp only []
  rw [show peek [l, op, r] 1 = some op from rfl]
  simp only []
  rw [if_pos (show isCompOp op = true from hop)]
  rw [hatomR]
  rfl

instance (t : String) : Decidable (AtomTok t) := by
  unfold AtomTok
  infer_instance

theorem Parser_parse_single (t : String) (ht : AtomTok t) :
    Parser.parse [t] = Except.ok (is_truthy (stripQuotes t)) := by
  unfold Parser.parse
  rw [show parseFuel [t] = 14 + 6 from rfl]
  rw [parseOr_single 14 t ht]
  rfl

theorem Parser_parse_triple (l op r : String) (hl : AtomTok l) (hr : AtomTok r)
    (hop : isCompOp op = true) :
    Parser.parse [l, op, r] = Except.ok (compareVals l op r) := by
  unfold Parser.parse
  rw [show parseFuel [l, op, r] = 34 + 6 from rfl]
  rw [parseOr_triple 34 l op r hl hr hop]
  rfl

/-- C1: for every comparison `l op r` of two atoms, the parser strips the
surrounding quotes from each operand; if both resulting texts are accepted by
Python `float()` the result is the IEEE-754 double comparison of the two
parsed values, otherwise the string comparison (lexicographic for the
ordering operators); the spec example `a > b` with `a = 10`, `b = 2`
evaluates to `true` numerically; and the float semantics is the machine one:
`nan == nan` is false, PEP 515 underscore separators are accepted
(`1_0 > 2` is true numerically), and values are rounded to binary64 before
comparing (`1.00000000000000001 == 1.0` is true). -/
theorem comparison_numeric_first :
    (∀ l op r : String, AtomTok l → AtomTok r → isCompOp op = true →
      Parser.parse [l, op, r] = Except.ok
        (match try_numeric (stripQuotes l), try_numeric (stripQuotes r) with
         | some a, some b => numCompare op a b
         | _, _ => strCompare op (stripQuotes l) (stripQuotes r)))
    ∧ evaluate_condition "\x7b\x7ba\x7d\x7d > \x7b\x7bb\x7d\x7d"
        [("a", Value.vint 10), ("b", Value.vint 2)] = Except.ok true
    ∧ evaluate_condition "nan == nan" [] = Except.ok false
    ∧ evaluate_condition "1_0 > 2" [] = Except.ok true
    ∧ evaluate_condition "1.00000000000000001 == 1.0" [] = Except.ok true := by
  refine ⟨?_, rfl, rfl, rfl, rfl⟩
  intro l op r hl hr hop
  rw [Parser_parse_triple l op r hl hr hop]
  rfl

theorem comparison_numeric_first_witness :
    Parser.parse ["10", ">", "2"] = Except.ok true :=
  (comparison_numeric_first.1 "10" ">" "2" (by decide) (by decide) rfl).trans rfl

/-- C2: a bare atom without a comparison operator evaluates to its truthiness
after quote stripping, and exactly the strings `false`, `False`, the empty
string, `0`, `none`, `None` are falsy — everything else, including `true`, is
truthy; the two spec examples (`x = "0"` is false, `x = "no"` is true) hold. -/
theorem bare_atom_truthiness :
    (∀ v : String, is_truthy v = false ↔
      (v = "false" ∨ v = "False" ∨ v = "" ∨ v = "0" ∨ v = "none" ∨ v = "None"))
    ∧ (∀ t : String, AtomTok t → Parser.parse [t] = Except.ok (is_truthy (stripQuotes t)))
    ∧ evaluate_condition "\x7b\x7bx\x7d\x7d" [("x", Value.vstr "0")] = Except.ok false
    ∧ evaluate_condition "\x7b\x7bx\x7d\x7d" [("x", Value.vstr "no")] = Except.ok true := by
  refine ⟨?_, fun t ht => Parser_parse_single t ht, rfl, rfl⟩
  intro v
  constructor
  · intro h
    by_cases h1 : v = "false"
    · exact Or.inl h1
    by_cases h2 : v = "False"
    · exact Or.inr (Or.inl h2)
    by_cases h3 : v = ""
    · exact Or.inr (Or.inr (Or.inl h3))
    by_cases h4 : v = "0"
    · exact Or.inr (Or.inr (Or.inr (Or.inl h4)))
    by_cases h5 : v = "none"
    · exact Or.inr (Or.inr (Or.inr (Or.inr (Or.inl h5))))
    by_cases h6 : v = "None"
    · exact Or.inr (Or.inr (Or.inr (Or.inr (Or.inr h6))))
    exfalso
    have htrue : is_truthy v = true := by
      unfold is_truthy
      simp [h1, h2, h3, h4, h5, h6]
    rw [htrue] at h
    exact Bool.noConfusion h
  · rintro (rfl | rfl | rfl | rfl | rfl | rfl) <;> rfl

theorem bare_atom_truthiness_witness : Parser.parse ["xy"] = Except.ok true :=
  (bare_atom_truthiness.2.1 "xy" (by decide)).trans rfl

theorem strSpan_none {q : Char} {l : List Char} (h : q ∉ l) : strSpan q l = Option.none := by
  induction l with
  | nil => rfl
  | cons c r ih =>
    have hc : ¬(c = q) := fun hc => h (by simp [hc])
    have hr : q ∉ r := fun hr => h (by simp [hr])
    simp [strSpan, hc, ih hr]

theorem pyStripL_cons_mem {c x : Char} {l : List Char} (hc : pyIsSpace c = false)
    (hx : x ∈ pyStripL (c :: l)) : x = c ∨ x ∈ l := by
  rw [pyStripL_cons_nonspace hc] at hx
  rcases List.mem_cons.mp hx with h | h
  · exact Or.inl h
  · exact Or.inr (mem_stripTrail h)

theorem evaluate_expression_strip (e : List Char) :
    evaluate_expression e =
      (if pyStripL e = [] then Except.ok true
       else match tokenize (pyStripL e) with
         | Except.error er => Except.error er
         | Except.ok ts => Parser.parse ts) := rfl

theorem tokenize_unterminated {q : Char} {body : List Char}
    (hq : q = squote ∨ q = dquote) (hmem : q ∉ body) :
    tokenize (q :: body) = Except.error "Unterminated string literal starting at position 0" := by
  have hsp : pyIsSpace q = false := by rcases hq with rfl | rfl <;> decide
  have hqq : (q = squote || q = dquote) = true := by
    rcases hq with rfl | rfl <;> simp
  unfold tokenize
  simp only [List.length_cons]
  simp only [tokenizeGo]
  rw [hsp, hqq]
  simp only [Bool.false_eq_true, if_false, if_true]
  rw [strSpan_none hmem]
  rfl

/-- C4(a) core: an expression starting with a quote that never closes makes
`_evaluate_expression` fail with the unterminated-string syntax error. -/
theorem evaluate_expression_unterminated {q : Char} {body : List Char}
    (hq : q = squote ∨ q = dquote) (hmem : q ∉ body) :
    evaluate_expression (q :: body)
      = Except.error "Unterminated string literal starting at position 0" := by
  have hsp : pyIsSpace q = false := by rcases hq with rfl | rfl <;> decide
  rw [evaluate_expression_strip, if_neg (pyStripL_cons_ne_nil hsp)]
  rw [pyStripL_cons_nonspace hsp]
  have hmem2 : q ∉ stripTrail body := fun hx => hmem (mem_stripTrail hx)
  rw [tokenize_unterminated hq hmem2]

theorem tokenize_badchar {c : Char} {rest : List Char}
    (hsp : pyIsSpace c = false) (hq1 : c ≠ squote) (hq2 : c ≠ dquote)
    (hp1 : c ≠ '(') (hp2 : c ≠ ')')
    (he : c ≠ '=') (hx : c ≠ '!') (hlt : c ≠ '<') (hgt : c ≠ '>')
    (hw : isTokWord c = false) :
    tokenize (c :: rest) = Except.error
      ("Unexpected character " ++ squoteStr ++ String.mk [c] ++ squoteStr
        ++ " at position 0") := by
  unfold tokenize
  simp only [List.length_cons]
  cases rest with
  | nil =>
    simp only [tokenizeGo, hsp, hq1, hq2, hp1, hp2, hlt, hgt, hw]
    simp [tokenizeGo, hsp, hq1, hq2, hp1, hp2, hlt, hgt, hw]
    rfl
  | cons c2 rest2 =>
    have h2 : twoCharOp c c2 = false := by
      unfold twoCharOp
      simp [he, hx, hlt, hgt]
    simp [tokenizeGo, hsp, hq1, hq2, hp1, hp2, h2, hlt, hgt, hw]
    rfl

theorem evaluate_expression_badchar {c : Char} {rest : List Char}
    (hsp : pyIsSpace c = false) (hq1 : c ≠ squote) (hq2 : c ≠ dquote)
    (hp1 : c ≠ '(') (hp2 : c ≠ ')')
    (he : c ≠ '=') (hx : c ≠ '!') (hlt : c ≠ '<') (hgt : c ≠ '>')
    (hw : isTokWord c = false) :
    evaluate_expression (c :: rest) = Except.error
      ("Unexpected character " ++ squoteStr ++ String.mk [c] ++ squoteStr
        ++ " at position 0") := by
  rw [evaluate_expression_strip, if_neg (pyStripL_cons_ne_nil hsp),
    pyStripL_cons_nonspace hsp]
  rw [tokenize_badchar hsp hq1 hq2 hp1 hp2 he hx hlt hgt hw]

/-- C4: `evaluate_condition` surfaces a syntax error (never a boolean) for an
unterminated string literal, for a character outside the recognized token set,
and for tokens left unconsumed after a complete parse; the last conjunct ties
`evaluate_condition` to the evaluation of the substituted, stripped text. -/
theorem syntax_errors_raise :
    (∀ (q : Char) (body : List Char), (q = squote ∨ q = dquote) → q ∉ body →
      evaluate_expression (q :: body)
        = Except.error "Unterminated string literal starting at position 0")
    ∧ (∀ (c : Char) (rest : List Char), pyIsSpace c = false → c ≠ squote → c ≠ dquote →
        c ≠ '(' → c ≠ ')' → c ≠ '=' → c ≠ '!' → c ≠ '<' → c ≠ '>' → isTokWord c = false →
        evaluate_expression (c :: rest)
          = Except.error ("Unexpected character " ++ squoteStr ++ String.mk [c] ++ squoteStr
              ++ " at position 0"))
    ∧ (∀ (ts : List String) (b : Bool) (pos : Nat),
        parseOr (parseFuel ts) ts 0 = Except.ok (b, pos) → pos < ts.length →
        Parser.parse ts = Except.error ("Unexpected token " ++ squoteStr ++ ts.getD pos ""
          ++ squoteStr ++ " at position " ++ toString pos))
    ∧ (∀ (e : String) (c : Ctx) (s : String),
        ¬(e.data = [] ∨ pyStripL e.data = []) → substitute_variables e c = Except.ok s →
        evaluate_condition e c = evaluate_expression (pyStripL s.data)) := by
  refine ⟨fun q body hq hmem => evaluate_expression_unterminated hq hmem,
    fun c rest hsp hq1 hq2 hp1 hp2 he hx hlt hgt hw =>
      evaluate_expression_badchar hsp hq1 hq2 hp1 hp2 he hx hlt hgt hw,
    ?_, ?_⟩
  · intro ts b pos h hlt
    unfold Parser.parse
    rw [h]
    simp [hlt]
  · intro e c s hne hsub
    unfold evaluate_condition
    rw [if_neg hne, hsub]

theorem syntax_errors_raise_witness :
    evaluate_expression (squote :: ['a'])
      = Except.error "Unterminated string literal starting at position 0" :=
  syntax_errors_raise.1 squote ['a'] (Or.inl rfl) (by decide)

theorem char_toNat_inj {a b : Char} (h : a.toNat = b.toNat) : a = b := by
  apply Char.ext
  exact UInt32.ext h

theorem lexLt_irrefl (l : List Char) : lexLt l l = false := by
  induction l with
  | nil => rfl
  | cons a as ih => simp [lexLt, ih]

theorem lexLt_trans : ∀ {a b c : List Char},
    lexLt a b = true → lexLt b c = true → lexLt a c = true := by
  intro a
  induction a with
  | nil =>
    intro b c h1 h2
    cases b with
    | nil => exact absurd h1 (by simp [lexLt])
    | cons y ys =>
      cases c with
      | nil => exact absurd h2 (by simp [lexLt])
      | cons z zs => rfl
  | cons x xs ih =>
    intro b c h1 h2
    cases b with
    | nil => exact absurd h1 (by simp [lexLt])
    | cons y ys =>
      cases c with
      | nil => exact absurd h2 (by simp [lexLt])
      | cons z zs =>
        simp only [lexLt] at h1 h2 ⊢
        by_cases hxy : x.toNat < y.toNat
        · by_cases hyz : y.toNat < z.toNat
          · rw [if_pos (by omega)]
          · rw [if_pos hxy] at h1
            rw [if_neg hyz] at h2
            by_cases hzy : z.toNat < y.toNat
            · rw [if_pos hzy] at h2
              exact absurd h2 (by simp)
            · rw [if_pos (by omega)]
        · rw [if_neg hxy] at h1
          by_cases hyx : y.toNat < x.toNat
          · rw [if_pos hyx] at h1
            exact absurd h1 (by simp)
          · rw [if_neg hyx] at h1
            by_cases hyz : y.toNat < z.toNat
            · rw [if_pos (by omega)]
            · rw [if_neg hyz] at h2
              by_cases hzy : z.toNat < y.toNat
              · rw [if_pos hzy] at h2
                exact absurd h2 (by simp)
              · rw [if_neg hzy] at h2
                rw [if_neg (by omega), if_neg (by omega)]
                exact ih h1 h2

theorem lexLt_conn : ∀ {a b : List Char},
    lexLt a b = false → lexLt b a = false → a = b := by
  intro a
  induction a with
  | nil =>
    intro b h1 _
    cases b with
    | nil => rfl
    | cons y ys => exact absurd h1 (by simp [lexLt])
  | cons x xs ih =>
    intro b h1 h2
    cases b with
    | nil => exact absurd h2 (by simp [lexLt])
    | cons y ys =>
      simp only [lexLt] at h1 h2
      by_cases hxy : x.toNat < y.toNat
      · rw [if_pos hxy] at h1
        exact absurd h1 (by simp)
      · by_cases hyx : y.toNat < x.toNat
        · rw [if_pos hyx] at h2
          exact absurd h2 (by simp)
        · rw [if_neg hxy, if_neg hyx] at h1
          rw [if_neg hyx, if_neg hxy] at h2
          have hchar : x = y := char_toNat_inj (by omega)
          rw [hchar, ih h1 h2]

theorem pyStrLe_refl (a : String) : pyStrLe a a = true := by
  unfold pyStrLe pyStrLt
  rw [lexLt_irrefl]
  rfl

theorem pyStrLe_total (a b : String) : pyStrLe a b = true ∨ pyStrLe b a = true := by
  unfold pyStrLe pyStrLt
  by_cases h : lexLt b.data a.data = true
  · right
    have hba : lexLt a.data b.data = false := by
      by_contra hab
      have hab2 : lexLt a.data b.data = true := by
        cases hv : lexLt a.data b.data
        · exact absurd hv hab
        · rfl
      have := lexLt_trans h hab2
      rw [lexLt_irrefl] at this
      exact Bool.noConfusion this
    rw [hba]
    rfl
  · left
    have hb : lexLt b.data a.data = false := by
      cases hv : lexLt b.data a.data
      · rfl
      · exact absurd hv h
    rw [hb]
    rfl

theorem pyStrLe_trans {a b c : String} (h1 : pyStrLe a b = true) (h2 : pyStrLe b c = true) :
    pyStrLe a c = true := by
  unfold pyStrLe pyStrLt at h1 h2 ⊢
  have hba : lexLt b.data a.data = false := by
    cases hv : lexLt b.data a.data
    · rfl
    · rw [hv] at h1
      exact Bool.noConfusion h1
  have hcb : lexLt c.data b.data = false := by
    cases hv : lexLt c.data b.data
    · rfl
    · rw [hv] at h2
      exact Bool.noConfusion h2
  have hca : lexLt c.data a.data = false := by
    by_contra hc
    have hca2 : lexLt c.data a.data = true := by
      cases hv : lexLt c.data a.data
      · exact absurd hv hc
      · rfl
    by_cases hbc : lexLt b.data c.data = true
    · have := lexLt_trans hbc hca2
      rw [this] at hba
      exact Bool.noConfusion hba
    · have hbc2 : lexLt b.data c.data = false := by
        cases hv : lexLt b.data c.data
        · rfl
        · exact absurd hv hbc
      have heq : b.data = c.data := lexLt_conn hbc2 hcb
      rw [← heq] at hca2
      rw [hca2] at hba
      exact Bool.noConfusion hba
  rw [hca]
  rfl

theorem sortDesc_max : ∀ l : List String, l ≠ [] →
    ∃ hd tl, sortDesc l = hd :: tl ∧ hd ∈ l ∧ ∀ m ∈ l, pyStrLe m hd = true := by
  intro l
  induction l with
  | nil => intro h; exact absurd rfl h
  | cons x xs ih =>
    intro _
    have hstep : sortDesc (x :: xs) = insertDesc x (sortDesc xs) := rfl
    by_cases hxs : xs = []
    · subst hxs
      refine ⟨x, [], rfl, by simp, ?_⟩
      intro m hm
      simp only [List.mem_singleton] at hm
      subst hm
      exact pyStrLe_refl m
    · obtain ⟨h0, t0, hsort, hmem, hmax⟩ := ih hxs
      rw [hstep, hsort]
      by_cases hcmp : pyStrLe h0 x = true
      · rw [show insertDesc x (h0 :: t0) = x :: h0 :: t0 by simp [insertDesc, hcmp]]
        refine ⟨x, h0 :: t0, rfl, by simp, ?_⟩
        intro m hm
        rcases List.mem_cons.mp hm with rfl | hm2
        · exact pyStrLe_refl m
        · exact pyStrLe_trans (hmax m hm2) hcmp
      · rw [show insertDesc x (h0 :: t0) = h0 :: insertDesc x t0 by simp [insertDesc, hcmp]]
        refine ⟨h0, insertDesc x t0, rfl, by simp [hmem], ?_⟩
        intro m hm
        rcases List.mem_cons.mp hm with rfl | hm2
        · rcases pyStrLe_total m h0 with h | h
          · exact h
          · exact absurd h hcmp
        · exact hmax m hm2

/-- C6: `resolve_model_pattern` returns the hint unchanged when the hint has no
glob character, when no provider name is given, when the provider has no
models, or when nothing matches; and when matches exist it returns a matching
model that is a maximum of the matches under string order (the
lexicographically last match). -/
theorem model_pattern_resolution :
    (∀ (hint : String) (pn : Option String) (av : List String),
      is_glob_pattern hint = false →
      (resolve_model_pattern hint pn av).resolved_model = hint)
    ∧ (∀ (hint : String) (av : List String),
      (resolve_model_pattern hint Option.none av).resolved_model = hint)
    ∧ (∀ (hint : String) (pn : Option String),
      (resolve_model_pattern hint pn []).resolved_model = hint)
    ∧ (∀ (hint : String) (pn : Option String) (av : List String),
      av.filter (fun m => globMatch hint.data m.data) = [] →
      (resolve_model_pattern hint pn av).resolved_model = hint)
    ∧ (∀ (hint : String) (pn : Option String) (av : List String),
      is_glob_pattern hint = true → ¬(pn = Option.none ∨ pn = some "") →
      av.filter (fun m => globMatch hint.data m.data) ≠ [] →
      (resolve_model_pattern hint pn av).resolved_model
          ∈ av.filter (fun m => globMatch hint.data m.data)
        ∧ ∀ m ∈ av.filter (fun m => globMatch hint.data m.data),
            pyStrLe m (resolve_model_pattern hint pn av).resolved_model = true) := by
  refine ⟨?_, ?_, ?_, ?_, ?_⟩
  · intro hint pn av hglob
    simp [resolve_model_pattern, hglob]
  · intro hint av
    by_cases hglob : is_glob_pattern hint = false
    · simp [resolve_model_pattern, hglob]
    · simp only [Bool.not_eq_false] at hglob
      simp [resolve_model_pattern, hglob]
  · intro hint pn
    by_cases hglob : is_glob_pattern hint = false
    · simp [resolve_model_pattern, hglob]
    · simp only [Bool.not_eq_false] at hglob
      by_cases hpn : pn = Option.none ∨ pn = some ""
      · simp [resolve_model_pattern, hglob, hpn]
      · simp [resolve_model_pattern, hglob, hpn]
  · intro hint pn av hfil
    by_cases hglob : is_glob_pattern hint = false
    · simp [resolve_model_pattern, hglob]
    · simp only [Bool.not_eq_false] at hglob
      by_cases hpn : pn = Option.none ∨ pn = some ""
      · simp [resolve_model_pattern, hglob, hpn]
      · by_cases hav : av = []
        · simp [resolve_model_pattern, hglob, hpn, hav]
        · simp [resolve_model_pattern, hglob, hpn, hav, hfil]
  · intro hint pn av hglob hpn hfil
    have hav : av ≠ [] := by
      intro h
      subst h
      exact hfil rfl
    obtain ⟨hd, tl, hsd, hmem, hmax⟩ :=
      sortDesc_max (av.filter (fun m => globMatch hint.data m.data)) hfil
    have hres : (resolve_model_pattern hint pn av).resolved_model = hd := by
      simp [resolve_model_pattern, hglob, hpn, hav, hfil, hsd]
    rw [hres]
    exact ⟨hmem, hmax⟩

theorem model_pattern_resolution_witness :
    (resolve_model_pattern "m-*" (some "p") ["m-1", "m-3", "m-2"]).resolved_model
        ∈ ["m-1", "m-3", "m-2"].filter (fun m => globMatch "m-*".data m.data)
      ∧ ∀ m ∈ ["m-1", "m-3", "m-2"].filter (fun m => globMatch "m-*".data m.data),
          pyStrLe m (resolve_model_pattern "m-*" (some "p") ["m-1", "m-3", "m-2"]).resolved_model
            = true :=
  model_pattern_resolution.2.2.2.2 "m-*" (some "p") ["m-1", "m-3", "m-2"]
    (by decide) (by simp) (by decide)

theorem parseOr_succ (f : Nat) (ts : List String) (pos : Nat) :
    parseOr (f + 1) ts pos =
      (match parseAnd f ts pos with
       | Except.error e => Except.error e
       | Except.ok (left, pos1) => parseOrLoop f ts pos1 left) := rfl

theorem parseOrLoop_succ (f : Nat) (ts : List String) (pos : Nat) (left : Bool) :
    parseOrLoop (f + 1) ts pos left =
      (if peek ts pos = some "or" then
        match parseAnd f ts (pos + 1) with
        | Except.error e => Except.error e
        | Except.ok (right, pos1) => parseOrLoop f ts pos1 (left || right)
      else Except.ok (left, pos)) := rfl

theorem parseAnd_succ (f : Nat) (ts : List String) (pos : Nat) :
    parseAnd (f + 1) ts pos =
      (match parseNot f ts pos with
       | Except.error e => Except.error e
       | Except.ok (left, pos1) => parseAndLoop f ts pos1 left) := rfl

theorem parseAndLoop_succ (f : Nat) (ts : List String) (pos : Nat) (left : Bool) :
    parseAndLoop (f + 1) ts pos left =
      (if peek ts pos = some "and" then
        match parseNot f ts (pos + 1) with
        | Except.error e => Except.error e
        | Except.ok (right, pos1) => parseAndLoop f ts pos1 (left && right)
      else Except.ok (left, pos)) := rfl

theorem parseNot_succ (f : Nat) (ts : List String) (pos : Nat) :
    parseNot (f + 1) ts pos =
      (if peek ts pos = some "not" then
        match parseNot f ts (pos + 1) with
        | Except.error e => Except.error e
        | Except.ok (v, pos1) => Except.ok (!v, pos1)
      else parseComparison f ts pos) := rfl

theorem parseComparison_succ (f : Nat) (ts : List String) (pos : Nat) :
    parseComparison (f + 1) ts pos =
      (match parseAtom f ts pos with
       | Except.error e => Except.error e
       | Except.ok (leftVal, pos1) =>
         match peek ts pos1 with
         | some op =>
           if isCompOp op then
             match parseAtom f ts (pos1 + 1) with
             | Except.error e => Except.error e
             | Except.ok (rightVal, pos2) => Except.ok (compareVals leftVal op rightVal, pos2)
           else Except.ok (is_truthy (stripQuotes leftVal), pos1)
         | Option.none => Except.ok (is_truthy (stripQuotes leftVal), pos1)) := rfl

theorem parseAtom_succ (f : Nat) (ts : List String) (pos : Nat) :
    parseAtom (f + 1) ts pos =
      (match peek ts pos with
       | Option.none => Except.error "Unexpected end of expression"
       | some token =>
         if token == "(" then
           match parseOr f ts (pos + 1) with
           | Except.error e => Except.error e
           | Except.ok (result, pos1) =>
             if peek ts pos1 = some ")" then
               Except.ok ((if result then "true" else "false"), pos1 + 1)
             else
               Except.error ("Expected " ++ squoteStr ++ ")" ++ squoteStr
                 ++ " to close parenthesized expression")
         else if isQuotedBy squote token || isQuotedBy dquote token then
           Except.ok (token, pos + 1)
         else if token == "and" || token == "or" || token == "not" then
           Except.error ("Unexpected keyword " ++ squoteStr ++ token ++ squoteStr
             ++ " where value expected")
         else if token == ")" || isCompOp token then
           Except.error ("Unexpected operator " ++ squoteStr ++ token ++ squoteStr
             ++ " where value expected")
         else Except.ok (token, pos + 1)) := rfl

theorem peek_lt {ts : List String} {pos : Nat} {t : String}
    (h : peek ts pos = some t) : pos < ts.length := by
  unfold peek at h
  by_contra hc
  rw [List.get?_eq_none.mpr (by omega)] at h
  exact Option.noConfusion h

theorem peek_none {ts : List String} {pos : Nat} (h : ts.length ≤ pos) :
    peek ts pos = Option.none :=
  List.get?_eq_none.mpr h

theorem parse_pos_bound : ∀ f : Nat,
    (∀ ts pos b p2, parseOr f ts pos = Except.ok (b, p2) → p2 ≤ ts.length)
    ∧ (∀ ts pos left b p2, pos ≤ ts.length →
        parseOrLoop f ts pos left = Except.ok (b, p2) → p2 ≤ ts.length)
    ∧ (∀ ts pos b p2, parseAnd f ts pos = Except.ok (b, p2) → p2 ≤ ts.length)
    ∧ (∀ ts pos left b p2, pos ≤ ts.length →
        parseAndLoop f ts pos left = Except.ok (b, p2) → p2 ≤ ts.length)
    ∧ (∀ ts pos b p2, parseNot f ts pos = Except.ok (b, p2) → p2 ≤ ts.length)
    ∧ (∀ ts pos b p2, parseComparison f ts pos = Except.ok (b, p2) → p2 ≤ ts.length)
    ∧ (∀ ts pos t p2, parseAtom f ts pos = Except.ok (t, p2) → p2 ≤ ts.length) := by
  intro f
  induction f with
  | zero =>
    refine ⟨?_, ?_, ?_, ?_, ?_, ?_, ?_⟩
    · intro ts pos b p2 h; exact absurd h (by simp [parseOr])
    · intro ts pos left b p2 _ h; exact absurd h (by simp [parseOrLoop])
    · intro ts pos b p2 h; exact absurd h (by simp [parseAnd])
    · intro ts pos left b p2 _ h; exact absurd h (by simp [parseAndLoop])
    · intro ts pos b p2 h; exact absurd h (by simp [parseNot])
    · intro ts pos b p2 h; exact absurd h (by simp [parseComparison])
    · intro ts pos t p2 h; exact absurd h (by simp [parseAtom])
  | succ f ih =>
    obtain ⟨ihOr, ihOrLoop, ihAnd, ihAndLoop, ihNot, ihComp, ihAtom⟩ := ih
    refine ⟨?_, ?_, ?_, ?_, ?_, ?_, ?_⟩
    · intro ts pos b p2 h
      rw [parseOr_succ] at h
      cases hA : parseAnd f ts pos with
      | error e => rw [hA] at h; exact absurd h (by simp)
      | ok v =>
        obtain ⟨left, pos1⟩ := v
        rw [hA] at h
        exact ihOrLoop ts pos1 left b p2 (ihAnd ts pos left pos1 hA) h
    · intro ts pos left b p2 hle h
      rw [parseOrLoop_succ] at h
      by_cases hp : peek ts pos = some "or"
      · rw [if_pos hp] at h
        cases hA : parseAnd f ts (pos + 1) with
        | error e => rw [hA] at h; exact absurd h (by simp)
        | ok v =>
          obtain ⟨right, pos1⟩ := v
          rw [hA] at h
          exact ihOrLoop ts pos1 (left || right) b p2 (ihAnd ts (pos + 1) right pos1 hA) h
      · rw [if_neg hp] at h
        simp only [Except.ok.injEq, Prod.mk.injEq] at h
        omega
    · intro ts pos b p2 h
      rw [parseAnd_succ] at h
      cases hA : parseNot f ts pos with
      | error e => rw [hA] at h; exact absurd h (by simp)
      | ok v =>
        obtain ⟨left, pos1⟩ := v
        rw [hA] at h
        exact ihAndLoop ts pos1 left b p2 (ihNot ts pos left pos1 hA) h
    · intro ts pos left b p2 hle h
      rw [parseAndLoop_succ] at h
      by_cases hp : peek ts pos = some "and"
      · rw [if_pos hp] at h
        cases hA : parseNot f ts (pos + 1) with
        | error e => rw [hA] at h; exact absurd h (by simp)
        | ok v =>
          obtain ⟨right, pos1⟩ := v
          rw [hA] at h
          exact ihAndLoop ts pos1 (left && right) b p2 (ihNot ts (pos + 1) right pos1 hA) h
      · rw [if_neg hp] at h
        simp only [Except.ok.injEq, Prod.mk.injEq] at h
        omega
    · intro ts pos b p2 h
      rw [parseNot_succ] at h
      by_cases hp : peek ts pos = some "not"
      · rw [if_pos hp] at h
        cases hA : parseNot f ts (pos + 1) with
        | error e => rw [hA] at h; exact absurd h (by simp)
        | ok v =>
          obtain ⟨v1, pos1⟩ := v
          rw [hA] at h
          simp only [Except.ok.injEq, Prod.mk.injEq] at h
          have := ihNot ts (pos + 1) v1 pos1 hA
          omega
      · rw [if_neg hp] at h
        exact ihComp ts pos b p2 h
    · intro ts pos b p2 h
      rw [parseComparison_succ] at h
      cases hA : parseAtom f ts pos with
      | error e => rw [hA] at h; exact absurd h (by simp)
      | ok v =>
        obtain ⟨lv, pos1⟩ := v
        rw [hA] at h
        simp only [] at h
        have hb1 := ihAtom ts pos lv pos1 hA
        cases hpk : peek ts pos1 with
        | none =>
          rw [hpk] at h
          simp only [Except.ok.injEq, Prod.mk.injEq] at h
          omega
        | some op =>
          rw [hpk] at h
          simp only [] at h
          by_cases hco : isCompOp op = true
          · rw [if_pos hco] at h
            cases hA2 : parseAtom f ts (pos1 + 1) with
            | error e => rw [hA2] at h; exact absurd h (by simp)
            | ok v2 =>
              obtain ⟨rv, pos2⟩ := v2
              rw [hA2] at h
              simp only [Except.ok.injEq, Prod.mk.injEq] at h
              have := ihAtom ts (pos1 + 1) rv pos2 hA2
              omega
          · rw [if_neg hco] at h
            simp only [Except.ok.injEq, Prod.mk.injEq] at h
            omega
    · intro ts pos t p2 h
      rw [parseAtom_succ] at h
      cases hpk : peek ts pos with
      | none => rw [hpk] at h; exact absurd h (by simp)
      | some token =>
        rw [hpk] at h
        simp only [] at h
        have hlt : pos < ts.length := peek_lt hpk
        by_cases hpar : (token == "(") = true
        · rw [if_pos hpar] at h
          cases hO : parseOr f ts (pos + 1) with
          | error e => rw [hO] at h; exact absurd h (by simp)
          | ok v =>
            obtain ⟨res, pos1⟩ := v
            rw [hO] at h
            simp only [] at h
            by_cases hcl : peek ts pos1 = some ")"
            · rw [if_pos hcl] at h
              simp only [Except.ok.injEq, Prod.mk.injEq] at h
              have := peek_lt hcl
              omega
            · rw [if_neg hcl] at h
              exact absurd h (by simp)
        · rw [if_neg hpar] at h
          by_cases hq : (isQuotedBy squote token || isQuotedBy dquote token) = true
          · rw [if_pos hq] at h
            simp only [Except.ok.injEq, Prod.mk.injEq] at h
            omega
          · rw [if_neg hq] at h
            by_cases hkw : (token == "and" || token == "or" || token == "not") = true
            · rw [if_pos hkw] at h
              exact absurd h (by simp)
            · rw [if_neg hkw] at h
              by_cases hop : (token == ")" || isCompOp token) = true
              · rw [if_pos hop] at h
                exact absurd h (by simp)
              · rw [if_neg hop] at h
                simp only [Except.ok.injEq, Prod.mk.injEq] at h
                omega

theorem parse_fuel_mono : ∀ f : Nat,
    (∀ g ts pos r, f ≤ g → parseOr f ts pos = Except.ok r → parseOr g ts pos = Except.ok r)
    ∧ (∀ g ts pos left r, f ≤ g → parseOrLoop f ts pos left = Except.ok r →
        parseOrLoop g ts pos left = Except.ok r)
    ∧ (∀ g ts pos r, f ≤ g → parseAnd f ts pos = Except.ok r → parseAnd g ts pos = Except.ok r)
    ∧ (∀ g ts pos left r, f ≤ g → parseAndLoop f ts pos left = Except.ok r →
        parseAndLoop g ts pos left = Except.ok r)
    ∧ (∀ g ts pos r, f ≤ g → parseNot f ts pos = Except.ok r → parseNot g ts pos = Except.ok r)
    ∧ (∀ g ts pos r, f ≤ g → parseComparison f ts pos = Except.ok r →
        parseComparison g ts pos = Except.ok r)
    ∧ (∀ g ts pos r, f ≤ g → parseAtom f ts pos = Except.ok r →
        parseAtom g ts pos = Except.ok r) := by
  intro f
  induction f with
  | zero =>
    refine ⟨?_, ?_, ?_, ?_, ?_, ?_, ?_⟩
    · intro g ts pos r _ h; exact absurd h (by simp [parseOr])
    · intro g ts pos left r _ h; exact absurd h (by simp [parseOrLoop])
    · intro g ts pos r _ h; exact absurd h (by simp [parseAnd])
    · intro g ts pos left r _ h; exact absurd h (by simp [parseAndLoop])
    · intro g ts pos r _ h; exact absurd h (by simp [parseNot])
    · intro g ts pos r _ h; exact absurd h (by simp [parseComparison])
    · intro g ts pos r _ h; exact absurd h (by simp [parseAtom])
  | succ f ih =>
    obtain ⟨ihOr, ihOrLoop, ihAnd, ihAndLoop, ihNot, ihComp, ihAtom⟩ := ih
    refine ⟨?_, ?_, ?_, ?_, ?_, ?_, ?_⟩
    · intro g ts pos r hle h
      obtain ⟨g1, rfl⟩ : ∃ g1, g = g1 + 1 := ⟨g - 1, by omega⟩
      have hle1 : f ≤ g1 := by omega
      rw [parseOr_succ] at h
      rw [parseOr_succ]
      cases hA : parseAnd f ts pos with
      | error e => rw [hA] at h; exact absurd h (by simp)
      | ok v =>
        obtain ⟨left, pos1⟩ := v
        rw [hA] at h
        simp only [] at h
        rw [ihAnd g1 ts pos (left, pos1) hle1 hA]
        exact ihOrLoop g1 ts pos1 left r hle1 h
    · intro g ts pos left r hle h
      obtain ⟨g1, rfl⟩ : ∃ g1, g = g1 + 1 := ⟨g - 1, by omega⟩
      have hle1 : f ≤ g1 := by omega
      rw [parseOrLoop_succ] at h
      rw [parseOrLoop_succ]
      by_cases hp : peek ts pos = some "or"
      · rw [if_pos hp] at h ⊢
        cases hA : parseAnd f ts (pos + 1) with
        | error e => rw [hA] at h; exact absurd h (by simp)
        | ok v =>
          obtain ⟨right, pos1⟩ := v
          rw [hA] at h
          simp only [] at h
          rw [ihAnd g1 ts (pos + 1) (right, pos1) hle1 hA]
          exact ihOrLoop g1 ts pos1 (left || right) r hle1 h
      · rw [if_neg hp] at h ⊢
        exact h
    · intro g ts pos r hle h
      obtain ⟨g1, rfl⟩ : ∃ g1, g = g1 + 1 := ⟨g - 1, by omega⟩
      have hle1 : f ≤ g1 := by omega
      rw [parseAnd_succ] at h
      rw [parseAnd_succ]
      cases hA : parseNot f ts pos with
      | error e => rw [hA] at h; exact absurd h (by simp)
      | ok v =>
        obtain ⟨left, pos1⟩ := v
        rw [hA] at h
        simp only [] at h
        rw [ihNot g1 ts pos (left, pos1) hle1 hA]
        exact ihAndLoop g1 ts pos1 left r hle1 h
    · intro g ts pos left r hle h
      obtain ⟨g1, rfl⟩ : ∃ g1, g = g1 + 1 := ⟨g - 1, by omega⟩
      have hle1 : f ≤ g1 := by omega
      rw [parseAndLoop_succ] at h
      rw [parseAndLoop_succ]
      by_cases hp : peek ts pos = some "and"
      · rw [if_pos hp] at h ⊢
        cases hA : parseNot f ts (pos + 1) with
        | error e => rw [hA] at h; exact absurd h (by simp)
        | ok v =>
          obtain ⟨right, pos1⟩ := v
          rw [hA] at h
          simp only [] at h
          rw [ihNot g1 ts (pos + 1) (right, pos1) hle1 hA]
          exact ihAndLoop g1 ts pos1 (left && right) r hle1 h
      · rw [if_neg hp] at h ⊢
        exact h
    · intro g ts pos r hle h
      obtain ⟨g1, rfl⟩ : ∃ g1, g = g1 + 1 := ⟨g - 1, by omega⟩
      have hle1 : f ≤ g1 := by omega
      rw [parseNot_succ] at h
      rw [parseNot_succ]
      by_cases hp : peek ts pos = some "not"
      · rw [if_pos hp] at h ⊢
        cases hA : parseNot f ts (pos + 1) with
        | error e => rw [hA] at h; exact absurd h (by simp)
        | ok v =>
          obtain ⟨v1, pos1⟩ := v
          rw [hA] at h
          simp only [] at h
          rw [ihNot g1 ts (pos + 1) (v1, pos1) hle1 hA]
          exact h
      · rw [if_neg hp] at h ⊢
        exact ihComp g1 ts pos r hle1 h
    · intro g ts pos r hle h
      obtain ⟨g1, rfl⟩ : ∃ g1, g = g1 + 1 := ⟨g - 1, by omega⟩
      have hle1 : f ≤ g1 := by omega
      rw [parseComparison_succ] at h
      rw [parseComparison_succ]
      cases hA : parseAtom f ts pos with
      | error e => rw [hA] at h; exact absurd h (by simp)
      | ok v =>
        obtain ⟨lv, pos1⟩ := v
        rw [hA] at h
        simp only [] at h
        rw [ihAtom g1 ts pos (lv, pos1) hle1 hA]
        simp only []
        cases hpk : peek ts pos1 with
        | none => rw [hpk] at h; exact h
        | some op =>
          rw [hpk] at h
          simp only [] at h
          simp only []
          by_cases hco : isCompOp op = true
          · rw [if_pos hco] at h ⊢
            cases hA2 : parseAtom f ts (pos1 + 1) with
            | error e => rw [hA2] at h; exact absurd h (by simp)
            | ok v2 =>
              obtain ⟨rv, pos2⟩ := v2
              rw [hA2] at h
              simp only [] at h
              rw [ihAtom g1 ts (pos1 + 1) (rv, pos2) hle1 hA2]
              exact h
          · rw [if_neg hco] at h ⊢
            exact h
    · intro g ts pos r hle h
      obtain ⟨g1, rfl⟩ : ∃ g1, g = g1 + 1 := ⟨g - 1, by omega⟩
      have hle1 : f ≤ g1 := by omega
      rw [parseAtom_succ] at h
      rw [parseAtom_succ]
      cases hpk : peek ts pos with
      | none => rw [hpk] at h; exact absurd h (by simp)
      | some token =>
        rw [hpk] at h
        simp only [] at h
        simp only []
        by_cases hpar : (token == "(") = true
        · rw [if_pos hpar] at h ⊢
          cases hO : parseOr f ts (pos + 1) with
          | error e => rw [hO] at h; exact absurd h (by simp)
          | ok v =>
            obtain ⟨res, pos1⟩ := v
            rw [hO] at h
            simp only [] at h
            rw [ihOr g1 ts (pos + 1) (res, pos1) hle1 hO]
            exact h
        · rw [if_neg hpar] at h ⊢
          exact h

/-- Tokens that may legally follow an embedded, fully-consumed sub-expression
without changing how its parse ends: the head of `rest` is none of the binary
keywords, `not`, or a comparison operator. -/
def StopTok (rest : List String) : Prop :=
  ∀ r0, rest.head? = some r0 →
    r0 ≠ "or" ∧ r0 ≠ "and" ∧ r0 ≠ "not" ∧ isCompOp r0 = false

theorem peek_append_lt {pre ts rest : List String} {i : Nat} (h : i < ts.length) :
    peek (pre ++ ts ++ rest) (pre.length + i) = peek ts i := by
  unfold peek
  rw [List.append_assoc, List.get?_append_right (by omega)]
  have he : pre.length + i - pre.length = i := by omega
  rw [he, List.get?_append h]

theorem peek_append_end {pre ts rest : List String} :
    peek (pre ++ ts ++ rest) (pre.length + ts.length) = rest.head? := by
  unfold peek
  rw [List.append_assoc, List.get?_append_right (by omega)]
  have he : pre.length + ts.length - pre.length = ts.length := by omega
  rw [he, List.get?_append_right (le_refl _), Nat.sub_self]
  cases rest <;> rfl

theorem parse_shift : ∀ f : Nat, ∀ pre ts rest : List String, StopTok rest →
    (∀ pos b p2, pos ≤ ts.length → parseOr f ts pos = Except.ok (b, p2) →
      parseOr f (pre ++ ts ++ rest) (pre.length + pos) = Except.ok (b, pre.length + p2))
    ∧ (∀ pos left b p2, pos ≤ ts.length → parseOrLoop f ts pos left = Except.ok (b, p2) →
      parseOrLoop f (pre ++ ts ++ rest) (pre.length + pos) left
        = Except.ok (b, pre.length + p2))
    ∧ (∀ pos b p2, pos ≤ ts.length → parseAnd f ts pos = Except.ok (b, p2) →
      parseAnd f (pre ++ ts ++ rest) (pre.length + pos) = Except.ok (b, pre.length + p2))
    ∧ (∀ pos left b p2, pos ≤ ts.length → parseAndLoop f ts pos left = Except.ok (b, p2) →
      parseAndLoop f (pre ++ ts ++ rest) (pre.length + pos) left
        = Except.ok (b, pre.length + p2))
    ∧ (∀ pos b p2, pos ≤ ts.length → parseNot f ts pos = Except.ok (b, p2) →
      parseNot f (pre ++ ts ++ rest) (pre.length + pos) = Except.ok (b, pre.length + p2))
    ∧ (∀ pos b p2, pos ≤ ts.length → parseComparison f ts pos = Except.ok (b, p2) →
      parseComparison f (pre ++ ts ++ rest) (pre.length + pos)
        = Except.ok (b, pre.length + p2))
    ∧ (∀ pos t p2, pos ≤ ts.length → parseAtom f ts pos = Except.ok (t, p2) →
      parseAtom f (pre ++ ts ++ rest) (pre.length + pos) = Except.ok (t, pre.length + p2)) := by
  intro f
  induction f with
  | zero =>
    intro pre ts rest _
    refine ⟨?_, ?_, ?_, ?_, ?_, ?_, ?_⟩
    · intro pos b p2 _ h; exact absurd h (by simp [parseOr])
    · intro pos left b p2 _ h; exact absurd h (by simp [parseOrLoop])
    · intro pos b p2 _ h; exact absurd h (by simp [parseAnd])
    · intro pos left b p2 _ h; exact absurd h (by simp [parseAndLoop])
    · intro pos b p2 _ h; exact absurd h (by simp [parseNot])
    · intro pos b p2 _ h; exact absurd h (by simp [parseComparison])
    · intro pos t p2 _ h; exact absurd h (by simp [parseAtom])
  | succ f ih =>
    intro pre ts rest hstop
    obtain ⟨ihOr, ihOrLoop, ihAnd, ihAndLoop, ihNot, ihComp, ihAtom⟩ := ih pre ts rest hstop
    have bAnd := (parse_pos_bound f).2.2.1
    have bNot := (parse_pos_bound f).2.2.2.2.1
    have bAtom := (parse_pos_bound f).2.2.2.2.2.2
    refine ⟨?_, ?_, ?_, ?_, ?_, ?_, ?_⟩
    · intro pos b p2 hle h
      rw [parseOr_succ] at h
      rw [parseOr_succ]
      cases hA : parseAnd f ts pos with
      | error e => rw [hA] at h; exact absurd h (by simp)
      | ok v =>
        obtain ⟨left, pos1⟩ := v
        rw [hA] at h
        simp only [] at h
        rw [ihAnd pos left pos1 hle hA]
        exact ihOrLoop pos1 left b p2 (bAnd ts pos left pos1 hA) h
    · intro pos left b p2 hle h
      rw [parseOrLoop_succ] at h
      rw [parseOrLoop_succ]
      by_cases hp : peek ts pos = some "or"
      · have hplt : pos < ts.length := peek_lt hp
        rw [peek_append_lt hplt]
        rw [if_pos hp] at h ⊢
        cases hA : parseAnd f ts (pos + 1) with
        | error e => rw [hA] at h; exact absurd h (by simp)
        | ok v =>
          obtain ⟨right, pos1⟩ := v
          rw [hA] at h
          simp only [] at h
          rw [show pre.length + pos + 1 = pre.length + (pos + 1) from by omega]
          rw [ihAnd (pos + 1) right pos1 (by omega) hA]
          exact ihOrLoop pos1 (left || right) b p2 (bAnd ts (pos + 1) right pos1 hA) h
      · rw [if_neg hp] at h
        simp only [Except.ok.injEq, Prod.mk.injEq] at h
        obtain ⟨rfl, rfl⟩ := h
        by_cases hplt : pos < ts.length
        · rw [peek_append_lt hplt, if_neg hp]
        · have hpe : pos = ts.length := by omega
          subst hpe
          rw [peek_append_end]
          cases hr : rest.head? with
          | none => rw [if_neg (by simp)]
          | some r0 =>
            have := (hstop r0 hr).1
            rw [if_neg (by simp [this])]
    · intro pos b p2 hle h
      rw [parseAnd_succ] at h
      rw [parseAnd_succ]
      cases hA : parseNot f ts pos with
      | error e => rw [hA] at h; exact absurd h (by simp)
      | ok v =>
        obtain ⟨left, pos1⟩ := v
        rw [hA] at h
        simp only [] at h
        rw [ihNot pos left pos1 hle hA]
        exact ihAndLoop pos1 left b p2 (bNot ts pos left pos1 hA) h
    · intro pos left b p2 hle h
      rw [parseAndLoop_succ] at h
      rw [parseAndLoop_succ]
      by_cases hp : peek ts pos = some "and"
      · have hplt : pos < ts.length := peek_lt hp
        rw [peek_append_lt hplt]
        rw [if_pos hp] at h ⊢
        cases hA : parseNot f ts (pos + 1) with
        | error e => rw [hA] at h; exact absurd h (by simp)
        | ok v =>
          obtain ⟨right, pos1⟩ := v
          rw [hA] at h
          simp only [] at h
          rw [show pre.length + pos + 1 = pre.length + (pos + 1) from by omega]
          rw [ihNot (pos + 1) right pos1 (by omega) hA]
          exact ihAndLoop pos1 (left && right) b p2 (bNot ts (pos + 1) right pos1 hA) h
      · rw [if_neg hp] at h
        simp only [Except.ok.injEq, Prod.mk.injEq] at h
        obtain ⟨rfl, rfl⟩ := h
        by_cases hplt : pos < ts.length
        · rw [peek_append_lt hplt, if_neg hp]
        · have hpe : pos = ts.length := by omega
          subst hpe
          rw [peek_append_end]
          cases hr : rest.head? with
          | none => rw [if_neg (by simp)]
          | some r0 =>
            have := (hstop r0 hr).2.1
            rw [if_neg (by simp [this])]
    · intro pos b p2 hle h
      rw [parseNot_succ] at h
      rw [parseNot_succ]
      by_cases hp : peek ts pos = some "not"
      · have hplt : pos < ts.length := peek_lt hp
        rw [peek_append_lt hplt]
        rw [if_pos hp] at h ⊢
        cases hA : parseNot f ts (pos + 1) with
        | error e => rw [hA] at h; exact absurd h (by simp)
        | ok v =>
          obtain ⟨v1, pos1⟩ := v
          rw [hA] at h
          simp only [] at h
          simp only [Except.ok.injEq, Prod.mk.injEq] at h
          obtain ⟨rfl, rfl⟩ := h
          rw [show pre.length + pos + 1 = pre.length + (pos + 1) from by omega]
          rw [ihNot (pos + 1) v1 pos1 (by omega) hA]
      · by_cases hplt : pos < ts.length
        · rw [peek_append_lt hplt, if_neg hp]
          rw [if_neg hp] at h
          exact ihComp pos b p2 hle h
        · have hpe : pos = ts.length := by omega
          subst hpe
          rw [if_neg hp] at h
          rw [peek_append_end]
          cases hr : rest.head? with
          | none =>
            rw [if_neg (by simp)]
            exact ihComp ts.length b p2 (le_refl _) h
          | some r0 =>
            have := (hstop r0 hr).2.2.1
            rw [if_neg (by simp [this])]
            exact ihComp ts.length b p2 (le_refl _) h
    · intro pos b p2 hle h
      rw [parseComparison_succ] at h
      rw [parseComparison_succ]
      cases hA : parseAtom f ts pos with
      | error e => rw [hA] at h; exact absurd h (by simp)
      | ok v =>
        obtain ⟨lv, pos1⟩ := v
        rw [hA] at h
        simp only [] at h
        have hb1 : pos1 ≤ ts.length := bAtom ts pos lv pos1 hA
        rw [ihAtom pos lv pos1 hle hA]
        simp only []
        cases hpk : peek ts pos1 with
        | some op =>
          have hp1lt : pos1 < ts.length := peek_lt hpk
          rw [hpk] at h
          simp only [] at h
          rw [peek_append_lt hp1lt, hpk]
          simp only []
          by_cases hco : isCompOp op = true
          · rw [if_pos hco] at h ⊢
            cases hA2 : parseAtom f ts (pos1 + 1) with
            | error e => rw [hA2] at h; exact absurd h (by simp)
            | ok v2 =>
              obtain ⟨rv, pos2⟩ := v2
              rw [hA2] at h
              simp only [] at h
              simp only [Except.ok.injEq, Prod.mk.injEq] at h
              obtain ⟨rfl, rfl⟩ := h
              rw [show pre.length + pos1 + 1 = pre.length + (pos1 + 1) from by omega]
              rw [ihAtom (pos1 + 1) rv pos2 (by omega) hA2]
          · rw [if_neg hco] at h ⊢
            simp only [Except.ok.injEq, Prod.mk.injEq] at h
            obtain ⟨rfl, rfl⟩ := h
            rfl
        | none =>
          rw [hpk] at h
          simp only [Except.ok.injEq, Prod.mk.injEq] at h
          obtain ⟨rfl, rfl⟩ := h
          have hge : ts.length ≤ pos1 := List.get?_eq_none.mp hpk
          have hpe : pos1 = ts.length := by omega
          subst hpe
          rw [peek_append_end]
          cases hr : rest.head? with
          | none => rfl
          | some r0 =>
            simp only []
            have := (hstop r0 hr).2.2.2
            rw [if_neg (by simp [this])]
    · intro pos t p2 hle h
      rw [parseAtom_succ] at h
      rw [parseAtom_succ]
      cases hpk : peek ts pos with
      | none => rw [hpk] at h; exact absurd h (by simp)
      | some token =>
        have hplt : pos < ts.length := peek_lt hpk
        rw [hpk] at h
        simp only [] at h
        rw [peek_append_lt hplt, hpk]
        simp only []
        by_cases hpar : (token == "(") = true
        · rw [if_pos hpar] at h ⊢
          cases hO : parseOr f ts (pos + 1) with
          | error e => rw [hO] at h; exact absurd h (by simp)
          | ok v =>
            obtain ⟨res, pos1⟩ := v
            rw [hO] at h
            simp only [] at h
            rw [show pre.length + pos + 1 = pre.length + (pos + 1) from by omega]
            rw [ihOr (pos + 1) res pos1 (by omega) hO]
            simp only []
            by_cases hcl : peek ts pos1 = some ")"
            · have hp1lt : pos1 < ts.length := peek_lt hcl
              rw [if_pos hcl] at h
              simp only [Except.ok.injEq, Prod.mk.injEq] at h
              obtain ⟨rfl, rfl⟩ := h
              rw [peek_append_lt hp1lt, if_pos hcl]
              rw [show pre.length + (pos1 + 1) = pre.length + pos1 + 1 from by omega]
            · rw [if_neg hcl] at h
              exact absurd h (by simp)
        · rw [if_neg hpar] at h ⊢
          by_cases hq : (isQuotedBy squote token || isQuotedBy dquote token) = true
          · rw [if_pos hq] at h ⊢
            simp only [Except.ok.injEq, Prod.mk.injEq] at h
            obtain ⟨rfl, rfl⟩ := h
            rw [show pre.length + (pos + 1) = pre.length + pos + 1 from by omega]
          · rw [if_neg hq] at h ⊢
            by_cases hkw : (token == "and" || token == "or" || token == "not") = true
            · rw [if_pos hkw] at h
              exact absurd h (by simp)
            · rw [if_neg hkw] at h ⊢
              by_cases hop : (token == ")" || isCompOp token) = true
              · rw [if_pos hop] at h
                exact absurd h (by simp)
              · rw [if_neg hop] at h ⊢
                simp only [Except.ok.injEq, Prod.mk.injEq] at h
                obtain ⟨rfl, rfl⟩ := h
                rw [show pre.length + (pos + 1) = pre.length + pos + 1 from by omega]

/-- The token `'true'` (a quoted string literal). -/
def quotedTrueTok : String := squoteStr ++ "true" ++ squoteStr

theorem parse_ok_elim {ts : List String} {b : Bool} (h : Parser.parse ts = Except.ok b) :
    parseOr (parseFuel ts) ts 0 = Except.ok (b, ts.length) := by
  unfold Parser.parse at h
  cases hO : parseOr (parseFuel ts) ts 0 with
  | error e => rw [hO] at h; exact absurd h (by simp)
  | ok v =>
    obtain ⟨b1, pos⟩ := v
    rw [hO] at h
    simp only [] at h
    by_cases hlt : pos < ts.length
    · rw [if_pos hlt] at h; exact absurd h (by simp)
    · rw [if_neg hlt] at h
      simp only [Except.ok.injEq] at h
      subst h
      have hle := (parse_pos_bound (parseFuel ts)).1 ts 0 b1 pos hO
      have hpe : pos = ts.length := by omega
      rw [hpe]

theorem stopTok_close_eq_true : StopTok [")", "==", quotedTrueTok] := by
  intro r0 hr
  simp only [List.head?_cons, Option.some.injEq] at hr
  subst hr
  refine ⟨by decide, by decide, by decide, by decide⟩

theorem peek_head {x : String} {l : List String} : peek (x :: l) 0 = some x := rfl

theorem paren_eq_true_general {ts : List String} {b : Bool} (h : Parser.parse ts = Except.ok b) :
    Parser.parse (["("] ++ ts ++ [")", "==", quotedTrueTok]) = Except.ok b := by
  have h0 := parse_ok_elim h
  set L := ts.length with hL
  have hlen : (["("] ++ ts ++ [")", "==", quotedTrueTok] : List String).length = L + 4 := by
    simp only [List.length_append, List.length_cons, List.length_nil, List.length_singleton]
    omega
  have h1 : parseOr (10 * L + 45) ts 0 = Except.ok (b, L) :=
    (parse_fuel_mono (parseFuel ts)).1 (10 * L + 45) ts 0 (b, L) (by unfold parseFuel; omega) h0
  have h2 := (parse_shift (10 * L + 45) ["("] ts [")", "==", quotedTrueTok]
      stopTok_close_eq_true).1 0 b L (by omega) h1
  simp only [List.length_singleton, Nat.add_zero] at h2
  have h3 : peek (["("] ++ ts ++ [")", "==", quotedTrueTok]) (1 + L) = some ")" := by
    have := @peek_append_end ["("] ts [")", "==", quotedTrueTok]
    simpa using this
  have h4 : peek (["("] ++ ts ++ [")", "==", quotedTrueTok]) (1 + L + 1) = some "==" := by
    unfold peek
    rw [List.append_assoc, List.get?_append_right (by simp only [List.length_singleton]; omega)]
    rw [show 1 + L + 1 - (["("] : List String).length = L + 1 from by
      simp only [List.length_singleton]; omega]
    rw [List.get?_append_right (by omega)]
    rw [show L + 1 - ts.length = 1 from by omega]
    rfl
  have h5 : peek (["("] ++ ts ++ [")", "==", quotedTrueTok]) (1 + L + 1 + 1)
      = some quotedTrueTok := by
    unfold peek
    rw [List.append_assoc, List.get?_append_right (by simp only [List.length_singleton]; omega)]
    rw [show 1 + L + 1 + 1 - (["("] : List String).length = L + 2 from by
      simp only [List.length_singleton]; omega]
    rw [List.get?_append_right (by omega)]
    rw [show L + 2 - ts.length = 2 from by omega]
    rfl
  have h7 : peek (["("] ++ ts ++ [")", "==", quotedTrueTok]) (1 + L + 1 + 1 + 1)
      = Option.none := peek_none (by rw [hlen]; omega)
  unfold Parser.parse
  rw [show parseFuel (["("] ++ ts ++ [")", "==", quotedTrueTok]) = 10 * L + 50 from by
    unfold parseFuel; rw [hlen]; omega]
  rw [show 10 * L + 50 = (10 * L + 49) + 1 from by omega, parseOr_succ]
  rw [show 10 * L + 49 = (10 * L + 48) + 1 from by omega, parseAnd_succ]
  rw [show 10 * L + 48 = (10 * L + 47) + 1 from by omega, parseNot_succ]
  rw [show peek (["("] ++ ts ++ [")", "==", quotedTrueTok]) 0 = some "(" from rfl]
  rw [if_neg (by decide : ¬((some "(" : Option String) = some "not"))]
  rw [show 10 * L + 47 = (10 * L + 46) + 1 from by omega, parseComparison_succ]
  rw [show 10 * L + 46 = (10 * L + 45) + 1 from by omega, parseAtom_succ]
  rw [show peek (["("] ++ ts ++ [")", "==", quotedTrueTok]) 0 = some "(" from rfl]
  simp only []
  rw [if_pos (by decide : (("(" : String) == "(") = true)]
  rw [show (0 : Nat) + 1 = 1 from rfl]
  rw [h2]
  simp only []
  rw [if_pos h3]
  simp only []
  rw [h4]
  simp only []
  rw [if_pos (by decide : isCompOp "==" = true)]
  rw [parseAtom_succ]
  rw [h5]
  simp only []
  rw [if_neg (by decide : ¬((quotedTrueTok == "(") = true))]
  rw [if_pos (by decide :
    (isQuotedBy squote quotedTrueTok || isQuotedBy dquote quotedTrueTok) = true)]
  simp only []
  rw [show compareVals (if b = true then "true" else "false") "==" quotedTrueTok = b from by
    cases b <;> rfl]
  rw [parseAndLoop_succ]
  rw [h7]
  rw [if_neg (by decide : ¬((Option.none : Option String) = some "and"))]
  simp only []
  rw [parseOrLoop_succ]
  rw [h7]
  rw [if_neg (by decide : ¬((Option.none : Option String) = some "or"))]
  simp only []
  rw [hlen]
  rw [if_neg (by omega : ¬(1 + L + 1 + 1 + 1 < L + 4))]

theorem paren_pair_compare_general {ts1 ts2 : List String} {b1 b2 : Bool}
    (hp1 : Parser.parse ts1 = Except.ok b1) (hp2 : Parser.parse ts2 = Except.ok b2) :
    Parser.parse (["("] ++ ts1 ++ [")", "==", "("] ++ ts2 ++ [")"])
      = Except.ok (b1 == b2) := by
  have h01 := parse_ok_elim hp1
  have h02 := parse_ok_elim hp2
  set L1 := ts1.length with hL1
  set L2 := ts2.length with hL2
  have hlen : (["("] ++ ts1 ++ [")", "==", "("] ++ ts2 ++ [")"] : List String).length
      = L1 + L2 + 5 := by
    simp only [List.length_append, List.length_cons, List.length_nil, List.length_singleton]
    omega
  have hm1 : parseOr (10 * L1 + 10 * L2 + 55) ts1 0 = Except.ok (b1, L1) :=
    (parse_fuel_mono (parseFuel ts1)).1 _ ts1 0 (b1, L1) (by unfold parseFuel; omega) h01
  have hm2 : parseOr (10 * L1 + 10 * L2 + 55) ts2 0 = Except.ok (b2, L2) :=
    (parse_fuel_mono (parseFuel ts2)).1 _ ts2 0 (b2, L2) (by unfold parseFuel; omega) h02
  have hstop1 : StopTok ([")", "==", "("] ++ ts2 ++ [")"]) := by
    intro r0 hr
    rw [show (([")", "==", "("] : List String) ++ ts2 ++ [")"]).head? = some ")" from rfl] at hr
    simp only [Option.some.injEq] at hr
    subst hr
    refine ⟨by decide, by decide, by decide, by decide⟩
  have hstop2 : StopTok [")"] := by
    intro r0 hr
    simp only [List.head?_cons, Option.some.injEq] at hr
    subst hr
    refine ⟨by decide, by decide, by decide, by decide⟩
  have h2a := (parse_shift (10 * L1 + 10 * L2 + 55) ["("] ts1 ([")", "==", "("] ++ ts2 ++ [")"])
      hstop1).1 0 b1 L1 (by omega) hm1
  simp only [List.length_singleton, Nat.add_zero] at h2a
  rw [show (["("] ++ ts1) ++ ([")", "==", "("] ++ ts2 ++ [")"])
      = ["("] ++ ts1 ++ [")", "==", "("] ++ ts2 ++ [")"] from by
    simp only [List.append_assoc]] at h2a
  have h2b := (parse_shift (10 * L1 + 10 * L2 + 55) (["("] ++ ts1 ++ [")", "==", "("]) ts2 [")"]
      hstop2).1 0 b2 L2 (by omega) hm2
  have hpre2 : ((["("] : List String) ++ ts1 ++ [")", "==", "("]).length = L1 + 4 := by
    simp only [List.length_append, List.length_cons, List.length_nil, List.length_singleton]
    omega
  rw [hpre2, Nat.add_zero] at h2b
  have hpk1 : peek (["("] ++ ts1 ++ [")", "==", "("] ++ ts2 ++ [")"]) (1 + L1)
      = some ")" := by
    unfold peek
    rw [List.get?_append (by
      simp only [List.length_append, List.length_cons, List.length_nil, List.length_singleton]
      omega)]
    rw [List.get?_append (by
      simp only [List.length_append, List.length_cons, List.length_nil, List.length_singleton]
      omega)]
    rw [List.get?_append_right (by
      simp only [List.length_append, List.length_cons, List.length_nil, List.length_singleton]
      omega)]
    rw [show 1 + L1 - ((["("] : List String) ++ ts1).length = 0 from by
      simp only [List.length_append, List.length_cons, List.length_nil, List.length_singleton]
      omega]
    rfl
  have hpk2 : peek (["("] ++ ts1 ++ [")", "==", "("] ++ ts2 ++ [")"]) (1 + L1 + 1)
      = some "==" := by
    unfold peek
    rw [List.get?_append (by
      simp only [List.length_append, List.length_cons, List.length_nil, List.length_singleton]
      omega)]
    rw [List.get?_append (by
      simp only [List.length_append, List.length_cons, List.length_nil, List.length_singleton]
      omega)]
    rw [List.get?_append_right (by
      simp only [List.length_append, List.length_cons, List.length_nil, List.length_singleton]
      omega)]
    rw [show 1 + L1 + 1 - ((["("] : List String) ++ ts1).length = 1 from by
      simp only [List.length_append, List.length_cons, List.length_nil, List.length_singleton]
      omega]
    rfl
  have hpk3 : peek (["("] ++ ts1 ++ [")", "==", "("] ++ ts2 ++ [")"]) (1 + L1 + 1 + 1)
      = some "(" := by
    unfold peek
    rw [List.get?_append (by
      simp only [List.length_append, List.length_cons, List.length_nil, List.length_singleton]
      omega)]
    rw [List.get?_append (by
      simp only [List.length_append, List.length_cons, List.length_nil, List.length_singleton]
      omega)]
    rw [List.get?_append_right (by
      simp only [List.length_append, List.length_cons, List.length_nil, List.length_singleton]
      omega)]
    rw [show 1 + L1 + 1 + 1 - ((["("] : List String) ++ ts1).length = 2 from by
      simp only [List.length_append, List.length_cons, List.length_nil, List.length_singleton]
      omega]
    rfl
  have hpk4 : peek (["("] ++ ts1 ++ [")", "==", "("] ++ ts2 ++ [")"]) (L1 + 4 + L2)
      = some ")" := by
    unfold peek
    rw [List.get?_append_right (by
      simp only [List.length_append, List.length_cons, List.length_nil, List.length_singleton]
      omega)]
    rw [show L1 + 4 + L2 - ((["("] : List String) ++ ts1 ++ [")", "==", "("] ++ ts2).length = 0
      from by
      simp only [List.length_append, List.length_cons, List.length_nil, List.length_singleton]
      omega]
    rfl
  have hpk5 : peek (["("] ++ ts1 ++ [")", "==", "("] ++ ts2 ++ [")"]) (L1 + 4 + L2 + 1)
      = Option.none := peek_none (by rw [hlen]; omega)
  unfold Parser.parse
  rw [show parseFuel (["("] ++ ts1 ++ [")", "==", "("] ++ ts2 ++ [")"])
      = 10 * L1 + 10 * L2 + 60 from by unfold parseFuel; rw [hlen]; omega]
  rw [show 10 * L1 + 10 * L2 + 60 = (10 * L1 + 10 * L2 + 59) + 1 from by omega, parseOr_succ]
  rw [show 10 * L1 + 10 * L2 + 59 = (10 * L1 + 10 * L2 + 58) + 1 from by omega, parseAnd_succ]
  rw [show 10 * L1 + 10 * L2 + 58 = (10 * L1 + 10 * L2 + 57) + 1 from by omega, parseNot_succ]
  rw [show peek (["("] ++ ts1 ++ [")", "==", "("] ++ ts2 ++ [")"]) 0 = some "(" from rfl]
  rw [if_neg (by decide : ¬((some "(" : Option String) = some "not"))]
  rw [show 10 * L1 + 10 * L2 + 57 = (10 * L1 + 10 * L2 + 56) + 1 from by omega,
    parseComparison_succ]
  rw [show 10 * L1 + 10 * L2 + 56 = (10 * L1 + 10 * L2 + 55) + 1 from by omega, parseAtom_succ]
  rw [show peek (["("] ++ ts1 ++ [")", "==", "("] ++ ts2 ++ [")"]) 0 = some "(" from rfl]
  simp only []
  rw [if_pos (by decide : (("(" : String) == "(") = true)]
  rw [show (0 : Nat) + 1 = 1 from rfl]
  rw [h2a]
  simp only []
  rw [if_pos hpk1]
  simp only []
  rw [hpk2]
  simp only []
  rw [if_pos (by decide : isCompOp "==" = true)]
  rw [parseAtom_succ]
  rw [hpk3]
  simp only []
  rw [if_pos (by decide : (("(" : String) == "(") = true)]
  rw [show 1 + L1 + 1 + 1 + 1 = L1 + 4 from by omega]
  rw [h2b]
  simp only []
  rw [if_pos hpk4]
  simp only []
  rw [show compareVals (if b1 = true then "true" else "false") "=="
      (if b2 = true then "true" else "false") = (b1 == b2) from by
    cases b1 <;> cases b2 <;> rfl]
  rw [show L1 + 4 + L2 + 1 = L1 + 4 + L2 + 1 from rfl]
  rw [parseAndLoop_succ]
  rw [hpk5]
  rw [if_neg (by decide : ¬((Option.none : Option String) = some "and"))]
  simp only []
  rw [parseOrLoop_succ]
  rw [hpk5]
  rw [if_neg (by decide : ¬((Option.none : Option String) = some "or"))]
  simp only []
  rw [hlen]
  rw [if_neg (by omega : ¬(L1 + 4 + L2 + 1 < L1 + L2 + 5))]

/-- C10: a parenthesized sub-expression used as a comparison operand is first
evaluated to a boolean and then stands for the literal token `true`/`false`:
wrapping any token list that parses to a boolean `b` as `( p ) == 'true'`
parses to the same `b`; comparing two parenthesized operands parses to the
equality of their two booleans (the string comparison of `true`/`false`); and
at the string level `evaluate_condition "(p) == 'true'" c = evaluate_condition
p c` on a true and on a false sub-expression. -/
theorem paren_subexpression_boolean_token :
    (∀ (ts : List String) (b : Bool), Parser.parse ts = Except.ok b →
      Parser.parse (["("] ++ ts ++ [")", "==", quotedTrueTok]) = Except.ok b)
    ∧ (∀ (ts1 ts2 : List String) (b1 b2 : Bool),
        Parser.parse ts1 = Except.ok b1 → Parser.parse ts2 = Except.ok b2 →
        Parser.parse (["("] ++ ts1 ++ [")", "==", "("] ++ ts2 ++ [")"])
          = Except.ok (b1 == b2))
    ∧ evaluate_condition ("(x == x) == " ++ quotedTrueTok) []
        = evaluate_condition "x == x" []
    ∧ evaluate_condition ("(0) == " ++ quotedTrueTok) []
        = evaluate_condition "0" [] := by
  refine ⟨?_, ?_, rfl, rfl⟩
  · intro ts b h
    exact paren_eq_true_general h
  · intro ts1 ts2 b1 b2 h1 h2
    exact paren_pair_compare_general h1 h2

theorem paren_subexpression_boolean_token_witness :
    Parser.parse (["("] ++ ["x"] ++ [")", "==", quotedTrueTok]) = Except.ok true
    ∧ Parser.parse (["("] ++ ["x"] ++ [")", "==", "("] ++ ["0"] ++ [")"])
        = Except.ok (true == false) :=
  ⟨paren_subexpression_boolean_token.1 ["x"] true rfl,
   paren_subexpression_boolean_token.2.1 ["x"] ["0"] true false rfl rfl⟩
